import Mathlib

/-!
Verification development for the process-supervisor / interaction-broker
repository (sidecar / termos).  Each TypeScript function relevant to the
checked properties is embedded shallowly as an executable Lean definition:
pure functions become Lean functions, stateful code becomes explicit state
passing, JS exceptions become `Except String`, and JS `undefined` becomes
`Option`.  Maps keyed by strings are association lists, which preserves the
insertion order that `JSON.stringify` and `Object.entries` observe.
-/

namespace Sidecar

/-- Process status tokens (`ProcessState.status` in process.ts / spec §3). -/
inductive ProcStatus where
  | pending
  | starting
  | running
  | ready
  | crashed
  | stopped
  | completed
deriving DecidableEq, Repr

/-- Restart policy (config.ts `RestartPolicySchema`, default `onFailure`). -/
inductive RestartPolicy where
  | always
  | onFailure
  | never
deriving DecidableEq, Repr

/-- First value bound to a key in an association list (JS `Map.get` /
record field access), `none` when absent (`undefined`). -/
def alistGet {α : Type} (l : List (String × α)) (k : String) : Option α :=
  (l.find? (fun p => p.1 = k)).map Prod.snd

/-- Structural split of a character list on newlines, with the semantics
of JS `String.prototype.split("\n")` (an empty text yields one empty
part; a trailing newline yields a trailing empty part). -/
def splitOnNl : List Char → List (List Char)
  | [] => [[]]
  | c :: rest =>
    match splitOnNl rest with
    | [] => [[c]]
    | h :: t => if c = '\n' then [] :: h :: t else (c :: h) :: t

/-- `text.split("\n")` on strings. -/
def splitLines (s : String) : List String := (splitOnNl s.data).map String.mk

/-- Whitespace recognised by the trim model (space, tab, CR, LF). -/
def isWs (c : Char) : Bool := c = ' ' || c = '\t' || c = '\n' || c = '\r'

/-- JS `String.prototype.trim()` (structural model). -/
def strTrim (s : String) : String :=
  String.mk (((s.data.dropWhile isWs).reverse.dropWhile isWs).reverse)

/--
The `dependsOn` field of a process config.  In TypeScript its type is
`string | string[] | undefined`; arrays carry an allocation identity `ref`
because `configsEqual` compares this field with JS `===`, which on arrays is
reference equality.  Two arrays produced by two separate YAML parses always
have distinct refs.
-/
inductive DependsOnVal where
  | undef
  | str (s : String)
  | arr (ref : Nat) (elems : List String)
deriving DecidableEq, Repr

/-- JS `===` on `dependsOn` values: value equality on `undefined` and
strings, reference equality on arrays. -/
def dependsOnJsEq : DependsOnVal → DependsOnVal → Bool
  | .undef, .undef => true
  | .str a, .str b => a = b
  | .arr r1 _, .arr r2 _ => r1 = r2
  | _, _ => false

/-- Declared process configuration (config.ts `ProcessConfigSchema`), after
zod parsing (defaults filled in).  `env` and `stdoutPatternVars` are
insertion-ordered key/value lists, mirroring JS object key order. -/
structure ProcessConfig where
  command : String
  cwd : Option String := none
  port : Option Nat := none
  force : Bool := false
  autoStart : Bool := true
  stdoutPatternVars : Option (List (String × String)) := none
  readyVars : Option (List String) := none
  env : Option (List (String × String)) := none
  envFile : Option String := none
  restartPolicy : RestartPolicy := .onFailure
  maxRestarts : Nat := 5
  healthCheck : Option String := none
  dependsOn : DependsOnVal := .undef
deriving DecidableEq, Repr

/-- `configsEqual` (pane-hosts.ts, ProcessManager module).  Field-by-field
comparison; the `JSON.stringify(x ?? {})`/`(x ?? [])` comparisons are
order-sensitive structural equality of the underlying lists, and the
`dependsOn` comparison is JS `===` (see `dependsOnJsEq`). -/
def configsEqual (a b : ProcessConfig) : Bool :=
  a.command = b.command &&
  a.cwd = b.cwd &&
  a.port = b.port &&
  a.autoStart = b.autoStart &&
  (a.stdoutPatternVars.getD []) = (b.stdoutPatternVars.getD []) &&
  (a.readyVars.getD []) = (b.readyVars.getD []) &&
  a.envFile = b.envFile &&
  a.restartPolicy = b.restartPolicy &&
  a.maxRestarts = b.maxRestarts &&
  a.healthCheck = b.healthCheck &&
  dependsOnJsEq a.dependsOn b.dependsOn &&
  (a.env.getD []) = (b.env.getD [])

/-!  ## Restart handling (ProcessManager.handleCrash / shouldRestart)  -/

/-- `ProcessManager.shouldRestart` (pane-hosts.ts).  `exitCode` is
`number | undefined`; JS `exitCode !== 0` is true when the code is
`undefined`. -/
def shouldRestart (policy : RestartPolicy) (exitCode : Option Int) : Bool :=
  match policy with
  | .always => true
  | .onFailure => exitCode ≠ some 0
  | .never => false

/-- What `ProcessManager.handleCrash` decides to do after a crash. -/
inductive CrashAction where
  | schedule (delayMs : Nat)
  | giveUp
  | noAction
deriving DecidableEq, Repr

/-- Decision logic of `ProcessManager.handleCrash` (pane-hosts.ts): restart
with exponential backoff `min(2^restartCount * 1000, restartBackoffMax)`
while `restartCount < maxRestarts`; give up once the budget is exhausted;
do nothing when the policy forbids restarting. -/
def handleCrashAction (policy : RestartPolicy) (exitCode : Option Int)
    (restartCount maxRestarts restartBackoffMax : Nat) : CrashAction :=
  if shouldRestart policy exitCode && decide (restartCount < maxRestarts) then
    .schedule (min (2 ^ restartCount * 1000) restartBackoffMax)
  else if shouldRestart policy exitCode then
    .giveUp
  else
    .noAction

/-- `settings?.restartBackoffMax ?? 30000` in the `ProcessManager`
constructor. -/
def resolveRestartBackoffMax (s : Option Nat) : Nat := s.getD 30000

/-- Observable slice of a `ProcessState` used by the give-up path. -/
structure ProcessStateView where
  status : ProcStatus
  error : Option String
deriving DecidableEq, Repr

/-- Modelled from the spec: `ManagedProcess` (process.ts) is not among the
provided sources; per the spec, when the restart budget is exhausted the
process is surfaced as `crashed` with `error = "max restarts exceeded"`. -/
def giveUpSurface (p : ProcessStateView) : ProcessStateView :=
  { p with status := .crashed, error := some "max restarts exceeded" }

/-!  ## ProcessManager.startProcess (claim about double starts)  -/

/-- The slice of `ProcessManager` state that `startProcess` consults. -/
structure PMState where
  processConfigs : List (String × ProcessConfig)
  processes : List (String × ProcStatus)
  envContextSet : Bool
deriving Repr

/-- The error message thrown for a double start. -/
def alreadyRunningError (name : String) : String :=
  "Process \"" ++ name ++ "\" is already running"

/-- `ProcessManager.startProcess` (pane-hosts.ts) up to and including the
spawn decision.  On success it reports the name handed to
`startManagedProcess` (the spawn); every `throw` is an `Except.error`.
A process that is registered on the fly starts `pending` (spec §4.5 state
machine; `ManagedProcess`'s constructor is in the absent process.ts). -/
def startProcess (st : PMState) (name : String) :
    Except String (PMState × String) :=
  match alistGet st.processConfigs name with
  | none => .error ("Process \"" ++ name ++ "\" not found")
  | some _ =>
    if !st.envContextSet then
      .error "Environment context not initialized"
    else
      let status := (alistGet st.processes name).getD ProcStatus.pending
      if status = .running || status = .ready || status = .starting then
        .error (alreadyRunningError name)
      else
        .ok (st, name)

/-!  ## Health checks (health.ts = unnamed/part_015)  -/

/-- Outcome of the underlying HTTP GET as node delivers it: a response
(whose status code may be absent), a request error, or a timeout. -/
inductive HttpOutcome where
  | response (statusCode : Option Nat)
  | failure (message : String)
  | timedOut
deriving DecidableEq, Repr

/-- `HealthCheckOptions` (url / path / port; host and timeout do not affect
the healthy verdict). -/
structure HealthCheckOptions where
  url : Option String := none
  path : Option String := none
  port : Option Nat := none
deriving DecidableEq, Repr

/-- `HealthCheckResult` (healthy flag plus diagnostic fields). -/
structure HealthCheckResult where
  healthy : Bool
  statusCode : Option Nat := none
  error : Option String := none
deriving DecidableEq, Repr

/-- JS truthiness of an optional string (empty string is falsy). -/
def truthyStr : Option String → Bool
  | some s => s ≠ ""
  | none => false

/-- JS truthiness of an optional number (0 is falsy). -/
def truthyNat : Option Nat → Bool
  | some n => n ≠ 0
  | none => false

/-- `checkHealth` (health.ts): with no target configured the result is
unhealthy with "Missing health check target"; a response is healthy iff its
status code is defined and in [200, 400); request errors and timeouts are
unhealthy. -/
def checkHealth (opts : HealthCheckOptions) (outcome : HttpOutcome) :
    HealthCheckResult :=
  if truthyStr opts.url = false &&
      (truthyStr opts.path = false || truthyNat opts.port = false) then
    { healthy := false, error := some "Missing health check target" }
  else
    match outcome with
    | .response code =>
      let healthy := match code with
        | some c => decide (200 ≤ c) && decide (c < 400)
        | none => false
      { healthy := healthy, statusCode := code }
    | .failure msg => { healthy := false, error := some msg }
    | .timedOut => { healthy := false, error := some "Timeout" }

/-- One step of `HealthChecker.check` (health.ts): `lastHealthy` is
`this.lastResult?.healthy` (`none` before the first check); returns whether
`onHealthChange` fires together with the new stored verdict.  JS
`previousHealthy !== result.healthy` is inequality on `Option Bool` against
`some result.healthy`. -/
def healthCheckerStep (lastHealthy : Option Bool) (result : HealthCheckResult) :
    Bool × Option Bool :=
  (decide (lastHealthy ≠ some result.healthy), some result.healthy)

/-!  ## EventLog result idempotence (ink-runner types.ts = unnamed/part_011) -/

/-- One line of the events file as `hasExistingResult` sees it after
`JSON.parse`: either a JSON object with its `type` / `id` / `action` fields
(absent fields are `none`), or a line that fails to parse. -/
inductive EventLine where
  | parsed (etype : String) (id : Option String) (action : Option String)
  | malformed
deriving DecidableEq, Repr

/-- The per-line test inside `hasExistingResult`'s backward loop:
`event.type === "result" && event.id === id`; malformed lines are ignored. -/
def eventLineMatches (id : String) : EventLine → Bool
  | .parsed etype lid _ => etype = "result" && lid = some id
  | .malformed => false

/-- `hasExistingResult` (types.ts): scan the file's lines backwards for a
`result` event with the given interaction id.  A missing or empty file has
no lines. -/
def hasExistingResult (lines : List EventLine) (id : String) : Bool :=
  lines.reverse.any (eventLineMatches id)

/-- The two environment variables `emitResult` reads
(`MCP_EVENTS_FILE`, `MCP_INTERACTION_ID`). -/
structure EmitEnv where
  eventsFile : Option String
  interactionId : Option String
deriving DecidableEq, Repr

/-- `emitResult` (types.ts) acting on the events file it targets: when both
env vars are truthy it first runs `hasExistingResult` and drops the event if
a result with this id already exists; otherwise it appends one
`{ts, type: "result", id, action, ...}` line. -/
def emitResult (env : EmitEnv) (action : String) (lines : List EventLine) :
    List EventLine :=
  match truthyStr env.eventsFile, env.interactionId with
  | true, some id =>
    if id ≠ "" then
      if hasExistingResult lines id then lines
      else lines ++ [.parsed "result" (some id) (some action)]
    else lines
  | _, _ => lines

/-- Number of `result` events carrying the interaction id `id`. -/
def resultCount (lines : List EventLine) (id : String) : Nat :=
  lines.countP (fun l => eventLineMatches id l)

/-!  ## IPC server limits (ipc.ts)  -/

/-- `IPC_CONFIG.maxConnections`. -/
def ipcMaxConnections : Nat := 50

/-- `IPC_CONFIG.maxRequestSize` (1 MiB). -/
def ipcMaxRequestSize : Nat := 1024 * 1024

/-- `IPC_CONFIG.connectionTimeout` (30 s idle). -/
def ipcConnectionTimeout : Nat := 30000

/-- An `IpcResponse` as written back to the socket (the `result` payload of
successful calls is irrelevant to the claims and elided). -/
structure IpcResponse where
  id : String
  ok : Bool
  error : Option String := none
deriving DecidableEq, Repr

/-- A request that passed `JSON.parse` + `IpcRequestSchema.parse`. -/
structure IpcReq where
  id : String
  method : String
deriving DecidableEq, Repr

/-- Per-connection state of the `socket.on("data", ...)` handler in
`startIpcServer`. -/
structure ConnState where
  buffer : String
  bufferSize : Nat
  destroyed : Bool
deriving DecidableEq, Repr

/-- Fresh connection state. -/
def ConnState.init : ConnState := ⟨"", 0, false⟩

/-- The response written when the buffered request exceeds
`maxRequestSize`. -/
def oversizeResponse : IpcResponse :=
  { id := "unknown", ok := false, error := some "Request too large" }

/-- Handling of one complete line inside the data loop: trim, skip empties,
parse (`JSON.parse` + zod, abstracted as `parse`), on failure answer
`{id: "unknown", ok: false, error: "Invalid request: ..."}` and continue,
on success run the handler and answer `{id, ok, result/error}`. -/
def processLine (parse : String → Except String IpcReq)
    (handler : String → Except String Unit) (line : String) :
    Option IpcResponse :=
  let l := strTrim line
  if l = "" then none
  else
    match parse l with
    | .error e =>
      some { id := "unknown", ok := false, error := some ("Invalid request: " ++ e) }
    | .ok req =>
      match handler req.method with
      | .ok _ => some { id := req.id, ok := true }
      | .error e => some { id := req.id, ok := false, error := some e }

/-- One `data` event of `startIpcServer`'s connection handler.  The size
check precedes buffering: an oversize accumulation answers
`oversizeResponse` and destroys the socket.  Otherwise the buffer is split
on `"\n"`; every complete line is processed (malformed lines answer a
failure response and processing continues), and the tail after the last
newline is retained, its length becoming the new `bufferSize`. -/
def onData (parse : String → Except String IpcReq)
    (handler : String → Except String Unit)
    (st : ConnState) (chunk : String) : ConnState × List IpcResponse :=
  if st.destroyed then (st, [])
  else
    let size := st.bufferSize + chunk.length
    if size > ipcMaxRequestSize then
      ({ st with bufferSize := size, destroyed := true }, [oversizeResponse])
    else
      let buf := st.buffer ++ chunk
      let parts := splitLines buf
      let complete := parts.dropLast
      let rest := (parts.getLast?).getD ""
      ({ buffer := rest, bufferSize := rest.length, destroyed := false },
        complete.filterMap (processLine parse handler))

/-- Connection admission in `startIpcServer`: at the limit the socket is
ended without a response; below it the active count increments. -/
inductive AcceptResult where
  | rejected
  | accepted
deriving DecidableEq, Repr

/-- `if (activeConnections >= IPC_CONFIG.maxConnections) socket.end()`. -/
def acceptConnection (active : Nat) : AcceptResult × Nat :=
  if ipcMaxConnections ≤ active then (.rejected, active)
  else (.accepted, active + 1)

/-- `socket.on("timeout", () => socket.destroy())`: the idle timeout
destroys the connection and writes nothing. -/
def onIdleTimeout (st : ConnState) : ConnState × List IpcResponse :=
  ({ st with destroyed := true }, [])

/-!  ## LogBuffer (ipc.ts module, `class LogBuffer`)  -/

/-- `LogBuffer`: fixed-size slot array (`new Array(capacity)`, holes are
`none`), a write index, and the current size. -/
structure LogBuffer where
  buffer : List (Option String)
  capacity : Nat
  writeIndex : Nat
  size : Nat
deriving DecidableEq, Repr

/-- The constructor (`new LogBuffer(capacity)`). -/
def LogBuffer.create (capacity : Nat) : LogBuffer :=
  ⟨List.replicate capacity none, capacity, 0, 0⟩

/-- `push(line)`: write the slot at `writeIndex`, advance it modulo
`capacity`, grow `size` up to `capacity`. -/
def LogBuffer.push (b : LogBuffer) (line : String) : LogBuffer :=
  { b with
    buffer := b.buffer.set b.writeIndex (some line),
    writeIndex := (b.writeIndex + 1) % b.capacity,
    size := if b.size < b.capacity then b.size + 1 else b.size }

/-- `pushLines(text)`: split on `"\n"` and push every non-empty line. -/
def LogBuffer.pushLines (b : LogBuffer) (text : String) : LogBuffer :=
  ((splitLines text).filter (fun l => l.length > 0)).foldl LogBuffer.push b

/-- `tail(count?)`: read `min(count ?? size, size)` consecutive slots ending
just before the write position (computed differently while the buffer has
not wrapped).  Reading the `i`-th slot of the loop is reading index
`(readIndex + i) % capacity`; a hole reads as `none` (JS `undefined`). -/
def LogBuffer.tail (b : LogBuffer) (count : Option Nat) : List (Option String) :=
  let n := count.getD b.size
  let actualCount := min n b.size
  let readIndex :=
    if b.size < b.capacity then b.size - actualCount
    else (b.writeIndex + b.capacity - actualCount) % b.capacity
  (List.range actualCount).map
    (fun i => b.buffer.getD ((readIndex + i) % b.capacity) none)

/-- `clear()`. -/
def LogBuffer.clear (b : LogBuffer) : LogBuffer :=
  { b with buffer := List.replicate b.capacity none, writeIndex := 0, size := 0 }

/-- The operations of the claim. -/
inductive LogOp where
  | push (line : String)
  | pushLines (text : String)
  | clear
deriving DecidableEq, Repr

/-- Apply one operation. -/
def LogBuffer.apply (b : LogBuffer) : LogOp → LogBuffer
  | .push l => b.push l
  | .pushLines t => b.pushLines t
  | .clear => b.clear

/-- Apply a sequence of operations. -/
def LogBuffer.applyAll (b : LogBuffer) (ops : List LogOp) : LogBuffer :=
  ops.foldl LogBuffer.apply b

/-- The individual lines an operation feeds into `push` (`none` for
`clear`, which discards history instead). -/
def opHistory (h : List String) : LogOp → List String
  | .push l => h ++ [l]
  | .pushLines t => h ++ (splitLines t).filter (fun l => l.length > 0)
  | .clear => []

/-- The full sequence of lines pushed since the last `clear`. -/
def historyOf (ops : List LogOp) : List String :=
  ops.foldl opHistory []

/-- The last `n` elements of a list, in order. -/
def lastN {α : Type} (n : Nat) (l : List α) : List α :=
  (l.reverse.take n).reverse

/-!  ## Config resolution and dependency sorting (config.ts)  -/

/-- `normalizeDependsOn` (config.ts): the JS-falsy check `if (!dependsOn)`
maps `undefined` and the empty string to `undefined`; an array (always
truthy, even empty) keeps its identity unless empty; a non-empty string
becomes a freshly allocated one-element array. -/
def normalizeDependsOn (d : DependsOnVal) (freshRef : Nat) : DependsOnVal :=
  match d with
  | .undef => .undef
  | .arr r es => if es.isEmpty then .undef else .arr r es
  | .str s => if s.isEmpty then .undef else .arr freshRef [s]

/-- `ResolvedProcessConfig` (config.ts): the declared config with its
`dependsOn` replaced by the normalized value, plus `name` and a resolved
working directory. -/
structure ResolvedProcessConfig extends ProcessConfig where
  name : String
  resolvedCwd : String
deriving DecidableEq, Repr

/-- The dependency list of a resolved config (`process.dependsOn` iterated
as an array; after normalization it is an array or `undefined`). -/
def ResolvedProcessConfig.deps (p : ResolvedProcessConfig) : List String :=
  match p.dependsOn with
  | .arr _ es => es
  | _ => []

/-- The entries a declared `dependsOn` effectively contributes: an array
its elements, a non-empty string one entry, and the JS-falsy empty string
none (it is dropped by `normalizeDependsOn` before validation). -/
def declaredDeps (pc : ProcessConfig) : List String :=
  match pc.dependsOn with
  | .undef => []
  | .str s => if s.isEmpty then [] else [s]
  | .arr _ es => es

/-- `path.resolve(configDir, cwd)`, modelled as: absolute paths win,
otherwise join (no `..`-collapsing; the claims do not depend on it). -/
def pathResolve (base rel : String) : String :=
  if rel.startsWith "/" then rel else base ++ "/" ++ rel

/-- The resolution step of `resolveProcessConfigs`: spread the declared
config, keep its fields, normalize `dependsOn` (fresh array refs are drawn
from `refBase`, one per entry: each parse/normalization allocates new
objects), resolve `cwd` against `configDir`. -/
def resolveOne (configDir : String) (refBase : Nat) (i : Nat)
    (entry : String × ProcessConfig) : ResolvedProcessConfig :=
  { toProcessConfig :=
      { entry.2 with dependsOn := normalizeDependsOn entry.2.dependsOn (refBase + i) }
    name := entry.1
    resolvedCwd :=
      match entry.2.cwd with
      | some c => pathResolve configDir c
      | none => configDir }

/-- First process whose `dependsOn` names an unknown process, with the
offending entry, in declaration order (the order the validation loop of
`resolveProcessConfigs` throws in). -/
def firstMissingDep (resolved : List ResolvedProcessConfig) :
    Option (String × String) :=
  let names := resolved.map (fun p => p.name)
  resolved.findSome? (fun p =>
    (p.deps.find? (fun d => names.contains d = false)).map (fun d => (p.name, d)))

/-- `resolveProcessConfigs` (config.ts): resolve every entry, then validate
that every dependency names a known process, throwing
`Process "X" depends on "Y" which does not exist` at the first violation. -/
def resolveProcessConfigs (processes : List (String × ProcessConfig))
    (configDir : String) (refBase : Nat) :
    Except String (List ResolvedProcessConfig) :=
  let resolved := (processes.enum).map
    (fun ip => resolveOne configDir refBase ip.1 ip.2)
  match firstMissingDep resolved with
  | some pd =>
    .error ("Process \"" ++ pd.1 ++ "\" depends on \"" ++ pd.2 ++
      "\" which does not exist")
  | none => .ok resolved

/-- The mutable state of `sortByDependencies`'s DFS: the output list and
the `visited` / `visiting` sets (lists without duplicates). -/
structure SortState where
  sorted : List ResolvedProcessConfig
  visited : List String
  visiting : List String
deriving Repr

mutual

/-- The `visit` closure of `sortByDependencies` (config.ts), with explicit
state and a fuel bound on recursion depth (the TS recursion is unbounded;
`sortByDependencies` below passes fuel exceeding every reachable depth, and
the theorems prove exhaustion unreachable).  `visitDeps` is the
`for (const dep of process.dependsOn)` loop. -/
def visit (pmap : List (String × ResolvedProcessConfig)) :
    Nat → String → SortState → Except String SortState
  | 0, _, _ => .error "visit recursion exhausted"
  | fuel + 1, name, st =>
    if st.visited.contains name then .ok st
    else if st.visiting.contains name then
      .error ("Circular dependency detected involving \"" ++ name ++ "\"")
    else
      let st1 : SortState := { st with visiting := name :: st.visiting }
      match alistGet pmap name with
      | none => .ok st1
      | some p =>
        match visitDeps pmap fuel p.deps st1 with
        | .error e => .error e
        | .ok st2 =>
          .ok { sorted := st2.sorted ++ [p]
                visited := name :: st2.visited
                visiting := st2.visiting.erase name }
termination_by fuel _ _ => (fuel, 0)

/-- The `for (const dep of process.dependsOn)` loop inside `visit`. -/
def visitDeps (pmap : List (String × ResolvedProcessConfig)) :
    Nat → List String → SortState → Except String SortState
  | _, [], st => .ok st
  | fuel, d :: rest, st =>
    match visit pmap fuel d st with
    | .error e => .error e
    | .ok st' => visitDeps pmap fuel rest st'
termination_by fuel deps _ => (fuel, deps.length + 1)

end

/-- The toplevel loop of `sortByDependencies`: visit every process name in
declaration order, threading the state. -/
def visitAll (pmap : List (String × ResolvedProcessConfig)) (fuel : Nat) :
    List String → SortState → Except String SortState
  | [], st => .ok st
  | n :: rest, st =>
    match visit pmap fuel n st with
    | .error e => .error e
    | .ok st' => visitAll pmap fuel rest st'

/-- `sortByDependencies` (config.ts): DFS topological sort over the process
map, visiting processes in declaration order. -/
def sortByDependencies (processes : List ResolvedProcessConfig) :
    Except String (List ResolvedProcessConfig) :=
  let pmap := processes.map (fun p => (p.name, p))
  match visitAll pmap (processes.length + 1) (processes.map (fun p => p.name))
      ⟨[], [], []⟩ with
  | .error e => .error e
  | .ok st => .ok st.sorted

/-!  ## Reload diff (ProcessManager.reload, pane-hosts.ts)  -/

/-- The diff computation at the top of `ProcessManager.reload`: iterate the
old names for `removed`, then the new entries for `added` (unknown name)
and `changed` (known name whose stored resolved config fails
`configsEqual` against the newly parsed declared config). -/
def reloadDiff (oldConfigs : List (String × ProcessConfig))
    (newProcesses : List (String × ProcessConfig)) :
    List String × List String × List String :=
  let oldNames := oldConfigs.map Prod.fst
  let newNames := newProcesses.map Prod.fst
  let removed := oldNames.filter (fun n => newNames.contains n = false)
  let added := (newProcesses.filter
    (fun p => oldNames.contains p.1 = false)).map Prod.fst
  let changed := (newProcesses.filter (fun p =>
    oldNames.contains p.1 &&
      (match alistGet oldConfigs p.1 with
       | some oldConfig => !configsEqual oldConfig p.2
       | none => false))).map Prod.fst
  (added, removed, changed)

/-!  ## Environment variable resolution (env-resolver.ts = unnamed/part_014)

`resolveEnvString` is four sequential `String.replace(regex, cb)` passes.
Each pass is embedded as a left-to-right scanner over the character list:
a JS global replace finds non-overlapping leftmost matches, never rescans
replacement text, and a `throw` inside a callback aborts at the first
failing occurrence — all of which the scanners reproduce.  JS `\w` is
`[A-Za-z0-9_]`. -/

/-- JS regex `\w`. -/
def isWordChar (c : Char) : Bool := c.isAlphanum || c = '_'

/-- The `{` character (written by code to stay out of string literals). -/
def braceOpen : Char := '\x7b'

/-- The `}` character. -/
def braceClose : Char := '\x7d'

/-- `EnvContext` (env-resolver.ts). -/
structure EnvContext where
  processPorts : List (String × Nat)
  processExports : List (String × List (String × String))
  currentPort : Option Nat := none
  systemEnv : List (String × String)

/-- The characters following `$` in a `$processes.name.var` reference. -/
def procLit : List Char := "processes.".data

/-- The error thrown for an unresolvable `$processes.name.var` reference. -/
def unresolvedMsg (varName procName : String) : String :=
  "Cannot resolve " ++ varName ++ " for process \"" ++ procName ++
    "\" - value not available"

/-- The callback body of the `$processes.name.var` pass: exports first,
then the `processPorts` fallback when the variable is `port`, else throw. -/
def procRefValue (ctx : EnvContext) (procName varName : String) :
    Except String String :=
  match (alistGet ctx.processExports procName).bind
      (fun ex => alistGet ex varName) with
  | some v => .ok v
  | none =>
    if varName = "port" then
      match alistGet ctx.processPorts procName with
      | some p => .ok (toString p)
      | none => .error (unresolvedMsg varName procName)
    else .error (unresolvedMsg varName procName)

/-- Pass 1: `value.replace(/\$processes\.(\w+)\.(\w+)/g, cb)`.  A match is
`$`, the literal `processes.`, a non-empty word run, `.`, a non-empty word
run; on a match the resolved value is emitted and scanning resumes after
the match, otherwise the character passes through and scanning continues at
the next position. -/
def subProcessesGo (ctx : EnvContext) : List Char → Except String (List Char)
  | [] => .ok []
  | c :: rest =>
    if c = '$' ∧ rest.take procLit.length = procLit ∧
        (rest.drop procLit.length).takeWhile isWordChar ≠ [] ∧
        ((rest.drop procLit.length).dropWhile isWordChar).head? = some '.' ∧
        ((rest.drop procLit.length).dropWhile isWordChar).tail.takeWhile
          isWordChar ≠ [] then
      match procRefValue ctx
          (String.mk ((rest.drop procLit.length).takeWhile isWordChar))
          (String.mk (((rest.drop procLit.length).dropWhile
            isWordChar).tail.takeWhile isWordChar)) with
      | .error e => .error e
      | .ok v =>
        match subProcessesGo ctx
            (((rest.drop procLit.length).dropWhile isWordChar).tail.dropWhile
              isWordChar) with
        | .error e => .error e
        | .ok out => .ok (v.data ++ out)
    else
      match subProcessesGo ctx rest with
      | .error e => .error e
      | .ok out => .ok (c :: out)
termination_by l => l.length
decreasing_by
  all_goals simp only [List.length_cons]
  all_goals try omega
  · have h1 : ((((rest.drop procLit.length).dropWhile isWordChar).tail.dropWhile
        isWordChar)).length ≤
        ((rest.drop procLit.length).dropWhile isWordChar).tail.length :=
      ((((rest.drop procLit.length).dropWhile
        isWordChar).tail).dropWhile_sublist isWordChar).length_le
    have h2 : ((rest.drop procLit.length).dropWhile isWordChar).tail.length ≤
        ((rest.drop procLit.length).dropWhile isWordChar).length := by
      rw [List.length_tail]; omega
    have h3 : ((rest.drop procLit.length).dropWhile isWordChar).length ≤
        (rest.drop procLit.length).length :=
      ((rest.drop procLit.length).dropWhile_sublist isWordChar).length_le
    have h4 : (rest.drop procLit.length).length ≤ rest.length := by
      rw [List.length_drop]; omega
    omega

/-- Pass 2: `.replace(/\$\{?PORT\}?/g, cb)`.  A match is `$`, an optional
`\x7b`, the literal `PORT`, an optional `\x7d`; the callback throws when
`currentPort` is undefined, else emits `String(port)`. -/
def subPortGo (currentPort : Option Nat) : List Char → Except String (List Char)
  | [] => .ok []
  | c :: rest =>
    if c = '$' ∧
        (if rest.head? = some braceOpen then rest.tail else rest).take 4 =
          "PORT".data then
      match currentPort with
      | none => .error "Cannot resolve $PORT - no port allocated for this process"
      | some p =>
        match subPortGo currentPort
            (if ((if rest.head? = some braceOpen then rest.tail
                else rest).drop 4).head? = some braceClose then
              ((if rest.head? = some braceOpen then rest.tail
                else rest).drop 4).tail
            else
              (if rest.head? = some braceOpen then rest.tail
                else rest).drop 4) with
        | .error e => .error e
        | .ok out => .ok ((toString p).data ++ out)
    else
      match subPortGo currentPort rest with
      | .error e => .error e
      | .ok out => .ok (c :: out)
termination_by l => l.length
decreasing_by
  all_goals simp only [List.length_cons, dite_eq_ite]
  all_goals try omega
  all_goals
    (have key : ∀ l : List Char,
        (if l.head? = some braceClose then l.tail else l).length ≤ l.length := by
      intro l
      split
      · rw [List.length_tail]; omega
      · omega
     have h2a := key (rest.tail.drop 4)
     have h2b := key (rest.drop 4)
     have h4 : rest.tail.length = rest.length - 1 := List.length_tail rest
     have h5 : (rest.tail.drop 4).length = rest.tail.length - 4 :=
       List.length_drop 4 rest.tail
     have h6 : (rest.drop 4).length = rest.length - 4 := List.length_drop 4 rest
     have h2c := key ((if rest.head? = some braceOpen then rest.tail
       else rest).drop 4)
     have h7 : (if rest.head? = some braceOpen then rest.tail
         else rest).length ≤ rest.length := by
       split
       · rw [List.length_tail]; omega
       · omega
     have h8 : ((if rest.head? = some braceOpen then rest.tail
         else rest).drop 4).length =
         (if rest.head? = some braceOpen then rest.tail else rest).length - 4 :=
       List.length_drop 4 _
     omega)

/-- Pass 3: `.replace(/\$\{(\w+)\}/g, cb)`: `$`, `\x7b`, a non-empty word
run, `\x7d`; a missing system variable substitutes the empty string. -/
def subBraceGo (sysEnv : List (String × String)) : List Char → List Char
  | [] => []
  | c :: rest =>
    if c = '$' ∧ rest.head? = some braceOpen ∧
        rest.tail.takeWhile isWordChar ≠ [] ∧
        (rest.tail.dropWhile isWordChar).head? = some braceClose then
      ((alistGet sysEnv (String.mk (rest.tail.takeWhile isWordChar))).getD
        "").data ++ subBraceGo sysEnv (rest.tail.dropWhile isWordChar).tail
    else c :: subBraceGo sysEnv rest
termination_by l => l.length
decreasing_by
  all_goals simp only [List.length_cons]
  all_goals try omega
  · have h1 : (rest.tail.dropWhile isWordChar).tail.length ≤
        (rest.tail.dropWhile isWordChar).length := by
      rw [List.length_tail]; omega
    have h2 : (rest.tail.dropWhile isWordChar).length ≤ rest.tail.length :=
      (rest.tail.dropWhile_sublist isWordChar).length_le
    have h3 : rest.tail.length ≤ rest.length := by
      rw [List.length_tail]; omega
    omega

/-- Pass 4: `.replace(/\$(\w+)/g, cb)`: `$` and a non-empty word run; the
callback returns the match itself when the captured name is `processes`
(so the literal is never re-matched), else the system variable or the
empty string. -/
def subVarGo (sysEnv : List (String × String)) : List Char → List Char
  | [] => []
  | c :: rest =>
    if c = '$' ∧ rest.takeWhile isWordChar ≠ [] then
      (if String.mk (rest.takeWhile isWordChar) = "processes" then
        c :: rest.takeWhile isWordChar
      else
        ((alistGet sysEnv (String.mk (rest.takeWhile isWordChar))).getD
          "").data) ++ subVarGo sysEnv (rest.dropWhile isWordChar)
    else c :: subVarGo sysEnv rest
termination_by l => l.length
decreasing_by
  all_goals simp only [List.length_cons]
  all_goals try omega
  · have h1 : (rest.dropWhile isWordChar).length ≤ rest.length :=
      (rest.dropWhile_sublist isWordChar).length_le
    omega

/-- `resolveEnvString` (env-resolver.ts): the four passes in order; an
exception in an earlier pass aborts the later ones. -/
def resolveEnvString (value : String) (ctx : EnvContext) : Except String String :=
  match subProcessesGo ctx value.data with
  | .error e => .error e
  | .ok s1 =>
    match subPortGo ctx.currentPort s1 with
    | .error e => .error e
    | .ok s2 => .ok (String.mk (subVarGo ctx.systemEnv (subBraceGo ctx.systemEnv s2)))

/-- `PORT`-prefix test used to state which names pass 2 captures. -/
def portLeading (v : String) : Bool := v.data.take 4 = "PORT".data

/-- The old manifest of the C1 failing input: `api` depends on `db`; its
stored resolved config keeps the parse's array object (ref 0). -/
def c1OldResolvedConfigs : List (String × ProcessConfig) :=
  match resolveProcessConfigs
      [("api", { command := "node api.js", dependsOn := .arr 0 ["db"] }),
       ("db", { command := "postgres" })] "/cfg" 100 with
  | .ok l => l.map (fun p : ResolvedProcessConfig => (p.name, p.toProcessConfig))
  | .error _ => []

/-- The reloaded manifest of the C1 failing input: textually identical, but
its fresh parse allocates a new `dependsOn` array object (ref 1). -/
def c1NewProcesses : List (String × ProcessConfig) :=
  [("api", { command := "node api.js", dependsOn := .arr 1 ["db"] }),
   ("db", { command := "postgres" })]

/-- IPC request parser that rejects its input, standing in for a
`JSON.parse`/zod failure on a malformed request line. -/
def rejectParse : String → Except String IpcReq :=
  fun _ => .error "Unexpected token g in JSON at position 0"

/-- IPC handler that accepts every method (irrelevant to the C6 run). -/
def okHandler : String → Except String Unit := fun _ => .ok ()

/-- Non-empty all-word-character string: the shape the `(\w+)` capture
groups match. -/
def wordish (st : String) : Bool := !st.data.isEmpty && st.data.all isWordChar

/-- What pass 2 leaves after a `\{?PORT\}?` match that started at some
`$` (the optional braces and the `PORT` literal consumed). -/
def portTokRest (l : List Char) : List Char :=
  if ((if l.head? = some braceOpen then l.tail else l).drop 4).head? =
      some braceClose then
    ((if l.head? = some braceOpen then l.tail else l).drop 4).tail
  else (if l.head? = some braceOpen then l.tail else l).drop 4

/-- Proof abstraction for the LogBuffer refinement: the ring buffer `b`
stores exactly the last `min h.length c` lines of the history `h` of lines
pushed since the last clear, the line of push number `t` sitting in slot
`t % c`. -/
def LogBufferInv (c : Nat) (h : List String) (b : LogBuffer) : Prop :=
  b.capacity = c ∧ b.buffer.length = c ∧ b.writeIndex = h.length % c ∧
  b.size = min h.length c ∧
  ∀ j, j < b.size →
    b.buffer.getD ((h.length + c - 1 - j) % c) none =
      some (h.reverse.getD j "")

/-- The names of a resolved process list, in declaration order. -/
def cfgNames (resolved : List ResolvedProcessConfig) : List String :=
  resolved.map (fun p => p.name)

/-- The dependency relation of the resolved graph: `DepRel r a b` holds
when the process named `a` declares `b` in its `dependsOn`. -/
def DepRel (resolved : List ResolvedProcessConfig) (a b : String) : Prop :=
  ∃ p ∈ resolved, p.name = a ∧ b ∈ p.deps

/-- The dependency graph contains a cycle. -/
def HasCycle (resolved : List ResolvedProcessConfig) : Prop :=
  ∃ x, Relation.TransGen (DepRel resolved) x x

/-- Every process of `l` has each of its dependencies resolved by an
earlier element of `l` (the claim's topological-order property). -/
def TopoOrdered (l : List ResolvedProcessConfig) : Prop :=
  ∀ i, ∀ hi : i < l.length, ∀ d ∈ (l.get ⟨i, hi⟩).deps,
    d ∈ (l.take i).map (fun p => p.name)

/-- The DFS stack is a dependency chain: each entry was pushed while
visiting a dependency of the entry below it. -/
def VisitChain (resolved : List ResolvedProcessConfig) : List String → Prop
  | [] => True
  | [_] => True
  | a :: b :: rest => DepRel resolved b a ∧ VisitChain resolved (b :: rest)

/-- `visit name` is only called on the dependencies of the stack head (or
from the toplevel loop with an empty stack). -/
def LinkOK (resolved : List ResolvedProcessConfig) (visiting : List String)
    (name : String) : Prop :=
  ∀ h, visiting.head? = some h → DepRel resolved h name

/-- Invariant of the DFS state of `sortByDependencies`. -/
def SortInv (resolved : List ResolvedProcessConfig) (st : SortState) : Prop :=
  st.visited.Nodup ∧ st.visiting.Nodup ∧
  st.visited ⊆ cfgNames resolved ∧ st.visiting ⊆ cfgNames resolved ∧
  (∀ x ∈ st.visited, x ∉ st.visiting) ∧
  st.sorted.map (fun p => p.name) = st.visited.reverse ∧
  (∀ p ∈ st.sorted,
    alistGet (resolved.map (fun q => (q.name, q))) p.name = some p) ∧
  (∀ i, ∀ hi : i < st.sorted.length, ∀ d ∈ (st.sorted.get ⟨i, hi⟩).deps,
    d ∈ (st.sorted.take i).map (fun p => p.name)) ∧
  VisitChain resolved st.visiting

/-!  # Theorems  -/

/-- C4: when a supervised process exits and its restart policy permits a
restart with budget remaining, `handleCrash` schedules the restart after
`min(2^restartCount * 1000, restartBackoffMax)` milliseconds (the cap
defaulting to 30000 ms); once `restartCount ≥ maxRestarts` no restart is
scheduled and the give-up path surfaces the process as `crashed` with
`error = "max restarts exceeded"`. -/
theorem c4_restart_backoff_and_give_up (policy : RestartPolicy)
    (exitCode : Option Int) (restartCount maxRestarts backoffMax : Nat) :
    (shouldRestart policy exitCode = true → restartCount < maxRestarts →
      handleCrashAction policy exitCode restartCount maxRestarts backoffMax =
        .schedule (min (2 ^ restartCount * 1000) backoffMax)) ∧
    (maxRestarts ≤ restartCount →
      ∀ d, handleCrashAction policy exitCode restartCount maxRestarts backoffMax ≠
        .schedule d) ∧
    (maxRestarts ≤ restartCount → shouldRestart policy exitCode = true →
      handleCrashAction policy exitCode restartCount maxRestarts backoffMax =
        .giveUp ∧
      ∀ p : ProcessStateView, (giveUpSurface p).status = .crashed ∧
        (giveUpSurface p).error = some "max restarts exceeded") ∧
    resolveRestartBackoffMax none = 30000 := by
  refine ⟨?_, ?_, ?_, rfl⟩
  · intro hs hlt
    simp [handleCrashAction, hs, hlt]
  · intro hge d
    cases hs : shouldRestart policy exitCode <;>
      simp [handleCrashAction, hs, Nat.not_lt.mpr hge]
  · intro hge hs
    refine ⟨by simp [handleCrashAction, hs, Nat.not_lt.mpr hge], ?_⟩
    intro p
    exact ⟨rfl, rfl⟩

/-- Witness for C4 at concrete inputs: a second crash under `onFailure`
with budget 5 schedules a 4 s backoff; an exhausted budget gives up. -/
theorem c4_restart_backoff_and_give_up_witness :
    handleCrashAction .onFailure (some 1) 2 5 30000 =
      .schedule (min (2 ^ 2 * 1000) 30000) ∧
    handleCrashAction .always none 5 5 30000 = .giveUp :=
  ⟨(c4_restart_backoff_and_give_up .onFailure (some 1) 2 5 30000).1 (by decide)
      (by decide),
   ((c4_restart_backoff_and_give_up .always none 5 5 30000).2.2.1 (by decide)
      (by decide)).1⟩

/-- C7: `startProcess` on a process whose status is `running` throws
`Process "<name>" is already running`; the error return means
`startManagedProcess` (the spawn) is never reached, so no second child is
spawned. -/
theorem c7_start_process_already_running (st : PMState) (name : String)
    (hcfg : (alistGet st.processConfigs name).isSome = true)
    (henv : st.envContextSet = true)
    (hrun : alistGet st.processes name = some .running) :
    startProcess st name = .error (alreadyRunningError name) := by
  unfold startProcess
  cases hc : alistGet st.processConfigs name with
  | none => rw [hc] at hcfg; simp at hcfg
  | some c => simp [henv, hrun]

/-- Witness for C7: a one-process manager with `web` running. -/
theorem c7_start_process_already_running_witness :
    startProcess
      { processConfigs := [("web", { command := "node server.js" })]
        processes := [("web", .running)]
        envContextSet := true } "web" =
      .error (alreadyRunningError "web") :=
  c7_start_process_already_running _ "web" (by decide) rfl (by decide)

/-- C8: `checkHealth` reports healthy exactly when the HTTP GET yields a
defined status code in [200, 400) (request errors and timeouts are
unhealthy), and one `HealthChecker.check` step fires `onHealthChange`
exactly when the verdict differs from the stored one, the step from the
initial unknown state always firing. -/
theorem c8_healthy_iff_2xx_3xx_and_flip (opts : HealthCheckOptions)
    (outcome : HttpOutcome) (prev : Option Bool) (r : HealthCheckResult)
    (htarget : truthyStr opts.url = true ∨
      (truthyStr opts.path = true ∧ truthyNat opts.port = true)) :
    ((checkHealth opts outcome).healthy = true ↔
      ∃ c, outcome = .response (some c) ∧ 200 ≤ c ∧ c < 400) ∧
    ((healthCheckerStep prev r).1 = true ↔ prev ≠ some r.healthy) ∧
    (prev = none → (healthCheckerStep prev r).1 = true) := by
  have hcond : (truthyStr opts.url = false &&
      (truthyStr opts.path = false || truthyNat opts.port = false)) = false := by
    rcases htarget with h | ⟨h1, h2⟩
    · simp [h]
    · simp [h1, h2]
  refine ⟨?_, ?_, ?_⟩
  · unfold checkHealth
    rw [hcond]
    simp only [Bool.false_eq_true, if_false]
    cases outcome with
    | response code =>
      cases code with
      | none => simp
      | some c =>
        constructor
        · intro hh
          simp only at hh
          refine ⟨c, rfl, ?_, ?_⟩ <;> simp_all
        · rintro ⟨c', heq, h1, h2⟩
          cases heq
          simp_all
    | failure msg => simp
    | timedOut => simp
  · unfold healthCheckerStep
    simp
  · intro hnone
    subst hnone
    unfold healthCheckerStep
    simp

/-- Witness for C8: a 200 response against a URL target is healthy, and
the first verdict flips from the unknown state. -/
theorem c8_healthy_iff_2xx_3xx_and_flip_witness :
    ((checkHealth { url := some "http://localhost:3000/health" }
        (.response (some 200))).healthy = true ↔
      ∃ c, HttpOutcome.response (some 200) = .response (some c) ∧
        200 ≤ c ∧ c < 400) ∧
    ((healthCheckerStep none { healthy := true }).1 = true ↔
      (none : Option Bool) ≠ some true) ∧
    ((none : Option Bool) = none →
      (healthCheckerStep none { healthy := true }).1 = true) :=
  c8_healthy_iff_2xx_3xx_and_flip
    { url := some "http://localhost:3000/health" }
    (.response (some 200)) none { healthy := true } (Or.inl (by decide))

/-- A `result` line matches `eventLineMatches id` exactly when it carries
that id. -/
theorem hasExistingResult_eq_any (lines : List EventLine) (id : String) :
    hasExistingResult lines id = lines.any (eventLineMatches id) := by
  unfold hasExistingResult
  exact List.any_reverse

/-- When the backward scan finds nothing, no line of the file is a
`result` with that id. -/
theorem resultCount_eq_zero_of_not_existing (lines : List EventLine)
    (id : String) (h : hasExistingResult lines id = false) :
    resultCount lines id = 0 := by
  rw [hasExistingResult_eq_any] at h
  unfold resultCount
  rw [List.countP_eq_zero]
  intro a ha hmat
  have : lines.any (eventLineMatches id) = true := by
    rw [List.any_eq_true]
    exact ⟨a, ha, hmat⟩
  rw [h] at this
  exact Bool.false_ne_true this

/-- C2: `emitResult` first scans the events file backwards
(`hasExistingResult`) and drops the new event when a `result` with the same
interaction id is already present; consequently a file holding at most one
`result` per id still holds at most one after any `emitResult` call, even a
repeated write on exit. -/
theorem c2_at_most_one_result_per_id (env : EmitEnv) (action : String)
    (lines : List EventLine) (id : String)
    (h : resultCount lines id ≤ 1) :
    resultCount (emitResult env action lines) id ≤ 1 ∧
    (∀ iid, env.interactionId = some iid → hasExistingResult lines iid = true →
      emitResult env action lines = lines) := by
  constructor
  · unfold emitResult
    cases hef : truthyStr env.eventsFile with
    | false => exact h
    | true =>
      cases hid : env.interactionId with
      | none => exact h
      | some iid =>
        simp only
        by_cases hne : iid ≠ ""
        · rw [if_pos hne]
          cases hex : hasExistingResult lines iid with
          | true => exact h
          | false =>
            simp only [Bool.false_eq_true, if_false]
            unfold resultCount
            rw [List.countP_append]
            by_cases heq : id = iid
            · subst heq
              have h0 := resultCount_eq_zero_of_not_existing lines id hex
              unfold resultCount at h0
              rw [h0]
              simp [eventLineMatches]
            · have : (List.countP (fun l => eventLineMatches id l)
                  [EventLine.parsed "result" (some iid) (some action)]) = 0 := by
                simp [eventLineMatches, show iid ≠ id from fun h' => heq h'.symm]
              rw [this]
              unfold resultCount at h
              omega
        · rw [if_neg hne]
          exact h
  · intro iid hiid hex
    unfold emitResult
    cases hef : truthyStr env.eventsFile with
    | false => rfl
    | true =>
      rw [hiid]
      simp only
      by_cases hne : iid ≠ ""
      · rw [if_pos hne, hex]
        simp
      · rw [if_neg hne]

/-- Witness for C2: a file already holding the `result` for id `i1` drops a
second write and stays at one `result` for that id. -/
theorem c2_at_most_one_result_per_id_witness :
    resultCount
      (emitResult
        { eventsFile := some "/runtime/s/events.jsonl"
          interactionId := some "i1" } "accept"
        [.parsed "status" none none, .parsed "result" (some "i1") (some "accept")])
      "i1" ≤ 1 ∧
    (∀ iid,
      ({ eventsFile := some "/runtime/s/events.jsonl"
         interactionId := some "i1" } : EmitEnv).interactionId = some iid →
      hasExistingResult
        [.parsed "status" none none, .parsed "result" (some "i1") (some "accept")]
        iid = true →
      emitResult
        { eventsFile := some "/runtime/s/events.jsonl"
          interactionId := some "i1" } "accept"
        [.parsed "status" none none, .parsed "result" (some "i1") (some "accept")] =
        [.parsed "status" none none,
          .parsed "result" (some "i1") (some "accept")]) :=
  c2_at_most_one_result_per_id
    { eventsFile := some "/runtime/s/events.jsonl", interactionId := some "i1" }
    "accept"
    [.parsed "status" none none, .parsed "result" (some "i1") (some "accept")]
    "i1" (by decide)

/-- C1 (failing-input evaluation): reloading a manifest in which every
entry is unchanged — including `api`'s unchanged `dependsOn: [db]` list —
reports `api` in `changed`, because `configsEqual` compares `dependsOn`
with JS `===` and the two parses hold distinct array objects.  The claim
requires `changed = []` here. -/
theorem c1_reload_diff_unchanged_depends_on_reported_changed :
    reloadDiff c1OldResolvedConfigs c1NewProcesses = ([], [], ["api"]) := by
  decide

/-- C6 (counterexample): a malformed request receives a failure response
`{id: "unknown", ok: false, error: "Invalid request: ..."}` but the
connection is NOT destroyed — the data loop `continue`s — contradicting
the claim that the connection is destroyed for malformed requests. -/
theorem c6_malformed_request_leaves_connection_open :
    (onData rejectParse okHandler ConnState.init "garbage\n").2 =
      [{ id := "unknown", ok := false,
         error := some "Invalid request: Unexpected token g in JSON at position 0" }] ∧
    (onData rejectParse okHandler ConnState.init "garbage\n").1.destroyed = false := by
  constructor <;> rfl

/-- C6 (amended): the server constants are 50 connections, 1 MiB request
size and a 30 s idle timeout; a request whose buffered size exceeds the
limit receives `{ok: false, error: "Request too large"}` and the connection
is destroyed; a malformed request receives `{ok: false, error: ...}` and
the connection stays open; the idle timeout destroys the connection without
a response; admission keeps at most 50 active connections. -/
theorem c6_ipc_limits_amended (st : ConnState) (chunk : String)
    (parse : String → Except String IpcReq)
    (handler : String → Except String Unit) (line emsg : String) (active : Nat)
    (hnd : st.destroyed = false)
    (hover : ipcMaxRequestSize < st.bufferSize + chunk.length)
    (hbad : parse (strTrim line) = .error emsg) (hne : strTrim line ≠ "") :
    ipcMaxConnections = 50 ∧ ipcMaxRequestSize = 1048576 ∧
    ipcConnectionTimeout = 30000 ∧
    (onData parse handler st chunk =
      ({ st with bufferSize := st.bufferSize + chunk.length, destroyed := true },
        [oversizeResponse]) ∧
      oversizeResponse.ok = false) ∧
    (processLine parse handler line =
      some { id := "unknown", ok := false, error := some ("Invalid request: " ++ emsg) }) ∧
    ((onIdleTimeout st).1.destroyed = true ∧ (onIdleTimeout st).2 = []) ∧
    (active < 50 → acceptConnection active = (.accepted, active + 1)) ∧
    (50 ≤ active → acceptConnection active = (.rejected, active)) := by
    refine ⟨rfl, rfl, rfl, ⟨?_, rfl⟩, ?_, ⟨rfl, rfl⟩, ?_, ?_⟩
    · unfold onData
      rw [hnd]
      simp only [Bool.false_eq_true, if_false]
      rw [if_pos hover]
    · unfold processLine
      rw [if_neg hne, hbad]
    · intro hlt
      unfold acceptConnection
      rw [if_neg (by unfold ipcMaxConnections; omega)]
    · intro hge
      unfold acceptConnection
      rw [if_pos (by unfold ipcMaxConnections; omega)]

/-- Witness for the amended C6 at a concrete oversize chunk, malformed
line and connection counts. -/
theorem c6_ipc_limits_amended_witness :
    ipcMaxConnections = 50 ∧ ipcMaxRequestSize = 1048576 ∧
    ipcConnectionTimeout = 30000 ∧
    (onData rejectParse okHandler ⟨"", 1048576, false⟩ "x" =
      (⟨"", 1048576 + "x".length, true⟩, [oversizeResponse]) ∧
      oversizeResponse.ok = false) ∧
    (processLine rejectParse okHandler "garbage" =
      some { id := "unknown", ok := false,
             error := some ("Invalid request: " ++
               "Unexpected token g in JSON at position 0") }) ∧
    ((onIdleTimeout ⟨"", 1048576, false⟩).1.destroyed = true ∧
      (onIdleTimeout ⟨"", 1048576, false⟩).2 = []) ∧
    (49 < 50 → acceptConnection 49 = (.accepted, 49 + 1)) ∧
    (50 ≤ 49 → acceptConnection 49 = (.rejected, 49)) :=
  c6_ipc_limits_amended ⟨"", 1048576, false⟩ "x" rejectParse okHandler
    "garbage" "Unexpected token g in JSON at position 0" 49 rfl (by decide) rfl
    (by decide)

/-!  ### Scanning lemmas for the env resolver  -/

/-- A non-`$` character passes through pass 1. -/
theorem subProcessesGo_cons (ctx : EnvContext) (c : Char) (l : List Char)
    (hc : c ≠ '$') :
    subProcessesGo ctx (c :: l) = (subProcessesGo ctx l).map (c :: ·) := by
  rw [subProcessesGo]
  rw [if_neg (by intro h; exact hc h.1)]
  cases subProcessesGo ctx l <;> rfl

/-- A non-`$` character passes through pass 2. -/
theorem subPortGo_cons (cp : Option Nat) (c : Char) (l : List Char)
    (hc : c ≠ '$') :
    subPortGo cp (c :: l) = (subPortGo cp l).map (c :: ·) := by
  rw [subPortGo.eq_def]
  simp only
  rw [if_neg (by intro h; exact hc h.1)]
  cases subPortGo cp l <;> rfl

/-- A non-`$` character passes through pass 3. -/
theorem subBraceGo_cons (se : List (String × String)) (c : Char) (l : List Char)
    (hc : c ≠ '$') :
    subBraceGo se (c :: l) = c :: subBraceGo se l := by
  rw [subBraceGo]
  rw [if_neg (by intro h; exact hc h.1)]

/-- A non-`$` character passes through pass 4. -/
theorem subVarGo_cons (se : List (String × String)) (c : Char) (l : List Char)
    (hc : c ≠ '$') :
    subVarGo se (c :: l) = c :: subVarGo se l := by
  rw [subVarGo]
  rw [if_neg (by intro h; exact hc h.1)]

/-- Pass 1 leaves a `$`-free string unchanged. -/
theorem subProcessesGo_no_dollar (ctx : EnvContext) (l : List Char)
    (h : '$' ∉ l) : subProcessesGo ctx l = .ok l := by
  induction l with
  | nil => rw [subProcessesGo]
  | cons c rest ih =>
    have hc : c ≠ '$' := fun hceq => h (hceq ▸ List.mem_cons_self c rest)
    rw [subProcessesGo_cons ctx c rest hc,
      ih (fun hm => h (List.mem_cons_of_mem c hm))]
    rfl

/-- Pass 2 leaves a `$`-free string unchanged. -/
theorem subPortGo_no_dollar (cp : Option Nat) (l : List Char)
    (h : '$' ∉ l) : subPortGo cp l = .ok l := by
  induction l with
  | nil => rw [subPortGo]
  | cons c rest ih =>
    have hc : c ≠ '$' := fun hceq => h (hceq ▸ List.mem_cons_self c rest)
    rw [subPortGo_cons cp c rest hc, ih (fun hm => h (List.mem_cons_of_mem c hm))]
    rfl

/-- Pass 3 leaves a `$`-free string unchanged. -/
theorem subBraceGo_no_dollar (se : List (String × String)) (l : List Char)
    (h : '$' ∉ l) : subBraceGo se l = l := by
  induction l with
  | nil => rw [subBraceGo]
  | cons c rest ih =>
    have hc : c ≠ '$' := fun hceq => h (hceq ▸ List.mem_cons_self c rest)
    rw [subBraceGo_cons se c rest hc, ih (fun hm => h (List.mem_cons_of_mem c hm))]

/-- Pass 4 leaves a `$`-free string unchanged. -/
theorem subVarGo_no_dollar (se : List (String × String)) (l : List Char)
    (h : '$' ∉ l) : subVarGo se l = l := by
  induction l with
  | nil => rw [subVarGo]
  | cons c rest ih =>
    have hc : c ≠ '$' := fun hceq => h (hceq ▸ List.mem_cons_self c rest)
    rw [subVarGo_cons se c rest hc, ih (fun hm => h (List.mem_cons_of_mem c hm))]

/-- `Nat.digitChar` never yields `$`. -/
theorem digitChar_ne_dollar (d : Nat) : Nat.digitChar d ≠ '$' := by
  by_cases h16 : d < 16
  · interval_cases d <;> decide
  · simp only [Nat.digitChar]
    repeat rw [if_neg (by omega)]
    decide

/-- `Nat.toDigitsCore` never introduces `$`. -/
theorem toDigitsCore_no_dollar (b : Nat) :
    ∀ (fuel n : Nat) (acc : List Char), '$' ∉ acc →
      '$' ∉ Nat.toDigitsCore b fuel n acc := by
  intro fuel
  induction fuel with
  | zero => intro n acc hacc; simpa [Nat.toDigitsCore] using hacc
  | succ f ih =>
    intro n acc hacc
    rw [Nat.toDigitsCore]
    have hcons : '$' ∉ Nat.digitChar (n % b) :: acc := by
      intro hm
      rcases List.mem_cons.mp hm with hm | hm
      · exact digitChar_ne_dollar (n % b) hm.symm
      · exact hacc hm
    split
    · exact hcons
    · exact ih (n / b) _ hcons

/-- The decimal rendering of a `Nat` (`String(port)` in JS) is `$`-free. -/
theorem toString_nat_no_dollar (n : Nat) : '$' ∉ (toString n).data := by
  show '$' ∉ (Nat.toDigits 10 n).asString.data
  show '$' ∉ Nat.toDigits 10 n
  exact toDigitsCore_no_dollar 10 (n + 1) n [] (by simp)

/-- C10: with a current port `p`, `$PORTFOLIO` resolves to `String(p)`
followed by `FOLIO` — the `\\$\\{?PORT\\}?` pass matches the `PORT` prefix of
the longer name — and the system environment (arbitrary in `ctx`, so any
`PORTFOLIO` binding it holds) is never consulted. -/
theorem c10_dollar_port_matches_longer_name (ctx : EnvContext) (p : Nat)
    (hp : ctx.currentPort = some p) :
    resolveEnvString "$PORTFOLIO" ctx = .ok (toString p ++ "FOLIO") := by
  unfold resolveEnvString
  have h1 : subProcessesGo ctx ("$PORTFOLIO".data) = .ok ("$PORTFOLIO".data) := by
    rw [show ("$PORTFOLIO".data) = '$' :: "PORTFOLIO".data from rfl]
    rw [subProcessesGo]
    rw [if_neg (by decide)]
    rw [subProcessesGo_no_dollar ctx ("PORTFOLIO".data) (by decide)]
  rw [hp]
  have h2 : subPortGo (some p) ("$PORTFOLIO".data) =
      .ok ((toString p).data ++ "FOLIO".data) := by
    rw [show ("$PORTFOLIO".data) = '$' :: "PORTFOLIO".data from rfl]
    rw [subPortGo]
    rw [if_pos (by decide)]
    have harg : (if ((if ("PORTFOLIO".data).head? = some braceOpen then
          ("PORTFOLIO".data).tail else "PORTFOLIO".data).drop 4).head? =
            some braceClose then
          ((if ("PORTFOLIO".data).head? = some braceOpen then
            ("PORTFOLIO".data).tail else "PORTFOLIO".data).drop 4).tail
        else
          (if ("PORTFOLIO".data).head? = some braceOpen then
            ("PORTFOLIO".data).tail else "PORTFOLIO".data).drop 4) =
        "FOLIO".data := by decide
    rw [harg, subPortGo_no_dollar (some p) ("FOLIO".data) (by decide)]
  have h34 : '$' ∉ (toString p).data ++ "FOLIO".data := by
    intro hm
    rcases List.mem_append.mp hm with hm | hm
    · exact toString_nat_no_dollar p hm
    · exact absurd hm (by decide)
  simp only [h1, h2, subBraceGo_no_dollar ctx.systemEnv _ h34,
    subVarGo_no_dollar ctx.systemEnv _ h34]
  rw [show (toString p).data ++ "FOLIO".data = (toString p ++ "FOLIO").data from
    (String.data_append (toString p) "FOLIO").symm]

/-- Witness for C10: port 5173 turns `$PORTFOLIO` into `5173FOLIO`, with a
system env that does bind `PORTFOLIO` (to `XXX`) and is ignored. -/
theorem c10_dollar_port_matches_longer_name_witness :
    resolveEnvString "$PORTFOLIO"
      { processPorts := [], processExports := [], currentPort := some 5173,
        systemEnv := [("PORTFOLIO", "XXX")] } = .ok "5173FOLIO" := by
  have h := c10_dollar_port_matches_longer_name
    { processPorts := [], processExports := [], currentPort := some 5173,
      systemEnv := [("PORTFOLIO", "XXX")] } 5173 rfl
  rw [h]
  exact congrArg Except.ok (by decide)

/-!  ### Token lemmas for the env resolver  -/

/-- A wordish string has no `$`. -/
theorem wordish_no_dollar (st : String) (h : wordish st = true) :
    '$' ∉ st.data := by
  intro hm
  have hall := (Bool.and_eq_true _ _ |>.mp h).2
  rw [List.all_eq_true] at hall
  have := hall '$' hm
  exact absurd this (by decide)

/-- A wordish string starts with a word character. -/
theorem wordish_head_word (st : String) (h : wordish st = true) :
    ∀ c, st.data.head? = some c → isWordChar c = true := by
  intro c hc
  have hall := (Bool.and_eq_true _ _ |>.mp h).2
  rw [List.all_eq_true] at hall
  exact hall c (List.mem_of_mem_head? hc)

/-- Unpack `wordish`. -/
theorem wordish_spec (st : String) (h : wordish st = true) :
    st.data ≠ [] ∧ ∀ c ∈ st.data, isWordChar c = true := by
  obtain ⟨h1, h2⟩ := Bool.and_eq_true _ _ |>.mp h
  refine ⟨?_, List.all_eq_true.mp h2⟩
  intro hnil
  rw [hnil] at h1
  simp at h1

/-- A maximal word run over `w ++ '.' :: r` with `w` wordish is `w`. -/
theorem takeWhile_wordish_dot (w : String) (hw : wordish w = true)
    (r : List Char) :
    (w.data ++ '.' :: r).takeWhile isWordChar = w.data ∧
    (w.data ++ '.' :: r).dropWhile isWordChar = '.' :: r := by
  obtain ⟨-, hall⟩ := wordish_spec w hw
  constructor
  · rw [List.takeWhile_append_of_pos hall,
      List.takeWhile_cons_of_neg (by decide), List.append_nil]
  · rw [List.dropWhile_append_of_pos hall,
      List.dropWhile_cons_of_neg (by decide)]

/-- Pass 1 on a full `$processes.name.var` reference runs the callback. -/
theorem subProcessesGo_ref (ctx : EnvContext) (name var : String)
    (hn : wordish name = true) (hv : wordish var = true) :
    subProcessesGo ctx ('$' :: (procLit ++ (name.data ++ '.' :: var.data))) =
      (procRefValue ctx name var).map String.data := by
  obtain ⟨hn1, hn2⟩ := wordish_spec name hn
  obtain ⟨hv1, hv2⟩ := wordish_spec var hv
  have htake : (procLit ++ (name.data ++ '.' :: var.data)).take procLit.length =
      procLit := List.take_left procLit _
  have hdrop : (procLit ++ (name.data ++ '.' :: var.data)).drop procLit.length =
      name.data ++ '.' :: var.data := List.drop_left procLit _
  obtain ⟨htw, hdw⟩ := takeWhile_wordish_dot name hn var.data
  have htwv : var.data.takeWhile isWordChar = var.data :=
    List.takeWhile_eq_self_iff.mpr hv2
  have hdwv : var.data.dropWhile isWordChar = [] :=
    List.dropWhile_eq_nil_iff.mpr hv2
  rw [subProcessesGo]
  rw [if_pos ?hcond]
  case hcond =>
    refine ⟨rfl, ?_, ?_, ?_, ?_⟩
    · rw [htake]
    · rw [hdrop, htw]; exact hn1
    · rw [hdrop, hdw]; rfl
    · rw [hdrop, hdw]
      show var.data.takeWhile isWordChar ≠ []
      rw [htwv]; exact hv1
  simp only [hdrop, htw, hdw, List.tail_cons, htwv, hdwv]
  rw [subProcessesGo]
  show (match procRefValue ctx ⟨name.data⟩ ⟨var.data⟩ with
    | .error e => Except.error e
    | .ok v =>
      match (Except.ok [] : Except String (List Char)) with
      | .error e => Except.error e
      | .ok out => Except.ok (v.data ++ out)) = _
  cases procRefValue ctx name var with
  | error e => rfl
  | ok v =>
    show Except.ok (v.data ++ []) = _
    rw [List.append_nil]
    rfl

/-- Pass 1 skips a `$` that does not begin a full reference. -/
theorem subProcessesGo_dollar_skip (ctx : EnvContext) (l : List Char)
    (h : ¬(l.take procLit.length = procLit ∧
      (l.drop procLit.length).takeWhile isWordChar ≠ [] ∧
      ((l.drop procLit.length).dropWhile isWordChar).head? = some '.' ∧
      ((l.drop procLit.length).dropWhile isWordChar).tail.takeWhile
        isWordChar ≠ [])) :
    subProcessesGo ctx ('$' :: l) = (subProcessesGo ctx l).map ('$' :: ·) := by
  rw [subProcessesGo]
  rw [if_neg (fun hc => h hc.2)]
  cases subProcessesGo ctx l <;> rfl

/-- Pass 2 with no allocated port throws at a `PORT` token. -/
theorem subPortGo_dollar_none (l : List Char)
    (h : (if l.head? = some braceOpen then l.tail else l).take 4 = "PORT".data) :
    subPortGo none ('$' :: l) =
      .error "Cannot resolve $PORT - no port allocated for this process" := by
  rw [subPortGo.eq_def]
  simp only
  rw [if_pos ⟨trivial, h⟩]

/-- Pass 2 with an allocated port substitutes at a `PORT` token and scans
on after the consumed token. -/
theorem subPortGo_dollar_some (p : Nat) (l : List Char)
    (h : (if l.head? = some braceOpen then l.tail else l).take 4 = "PORT".data) :
    subPortGo (some p) ('$' :: l) =
      (subPortGo (some p) (portTokRest l)).map
        (fun out => (toString p).data ++ out) := by
  rw [subPortGo.eq_def]
  simp only
  rw [if_pos ⟨trivial, h⟩]
  show (match subPortGo (some p) (portTokRest l) with
    | .error e => Except.error e
    | .ok out => Except.ok ((toString p).data ++ out)) = _
  cases subPortGo (some p) (portTokRest l) <;> rfl

/-- Pass 2 skips a `$` not followed by a `PORT` token. -/
theorem subPortGo_dollar_skip (cp : Option Nat) (l : List Char)
    (h : (if l.head? = some braceOpen then l.tail else l).take 4 ≠ "PORT".data) :
    subPortGo cp ('$' :: l) = (subPortGo cp l).map ('$' :: ·) := by
  rw [subPortGo.eq_def]
  simp only
  rw [if_neg (fun hc => h hc.2)]
  cases subPortGo cp l <;> rfl

/-- Pass 3 substitutes a full `${v}` group. -/
theorem subBraceGo_token (se : List (String × String)) (v : String)
    (hv : wordish v = true) :
    subBraceGo se ('$' :: braceOpen :: (v.data ++ [braceClose])) =
      ((alistGet se v).getD "").data := by
  obtain ⟨hv1, hv2⟩ := wordish_spec v hv
  have htw : (v.data ++ [braceClose]).takeWhile isWordChar = v.data := by
    rw [List.takeWhile_append_of_pos hv2,
      List.takeWhile_cons_of_neg (by decide), List.append_nil]
  have hdw : (v.data ++ [braceClose]).dropWhile isWordChar = [braceClose] := by
    rw [List.dropWhile_append_of_pos hv2,
      List.dropWhile_cons_of_neg (by decide)]
  rw [subBraceGo]
  rw [if_pos ?hcond]
  case hcond =>
    refine ⟨rfl, rfl, ?_, ?_⟩
    · show (braceOpen :: (v.data ++ [braceClose])).tail.takeWhile isWordChar ≠ []
      rw [List.tail_cons, htw]; exact hv1
    · show ((braceOpen :: (v.data ++ [braceClose])).tail.dropWhile
        isWordChar).head? = some braceClose
      rw [List.tail_cons, hdw]; rfl
  simp only [List.tail_cons, htw, hdw]
  rw [subBraceGo]
  rw [List.append_nil]

/-- Pass 3 skips a `$` that does not begin a full `${v}` group. -/
theorem subBraceGo_dollar_skip (se : List (String × String)) (l : List Char)
    (h : ¬(l.head? = some braceOpen ∧ l.tail.takeWhile isWordChar ≠ [] ∧
      (l.tail.dropWhile isWordChar).head? = some braceClose)) :
    subBraceGo se ('$' :: l) = '$' :: subBraceGo se l := by
  rw [subBraceGo]
  rw [if_neg (fun hc => h hc.2)]

/-- Pass 4 substitutes `$v` for any wordish `v` other than `processes`. -/
theorem subVarGo_token (se : List (String × String)) (v : String)
    (hv : wordish v = true) (hproc : v ≠ "processes") :
    subVarGo se ('$' :: v.data) = ((alistGet se v).getD "").data := by
  obtain ⟨hv1, hv2⟩ := wordish_spec v hv
  have htw : v.data.takeWhile isWordChar = v.data :=
    List.takeWhile_eq_self_iff.mpr hv2
  have hdw : v.data.dropWhile isWordChar = [] :=
    List.dropWhile_eq_nil_iff.mpr hv2
  rw [subVarGo]
  rw [if_pos ⟨rfl, by rw [htw]; exact hv1⟩]
  simp only [htw, hdw]
  rw [if_neg (show ¬(String.mk v.data = "processes") from hproc)]
  rw [subVarGo]
  rw [List.append_nil]

/-- Pass 4 returns the literal `$processes` unchanged. -/
theorem subVarGo_processes (se : List (String × String)) :
    subVarGo se ('$' :: "processes".data) = '$' :: "processes".data := by
  rw [subVarGo]
  rw [if_pos ⟨rfl, by decide⟩]
  rw [show ("processes".data.takeWhile isWordChar) = "processes".data from by decide]
  rw [show ("processes".data.dropWhile isWordChar) = ([] : List Char) from by decide]
  rw [if_pos rfl]
  rw [subVarGo]
  rw [List.append_nil]

/-- Pass 4 skips a `$` followed by no word character. -/
theorem subVarGo_dollar_skip (se : List (String × String)) (l : List Char)
    (h : l.takeWhile isWordChar = []) :
    subVarGo se ('$' :: l) = '$' :: subVarGo se l := by
  rw [subVarGo]
  rw [if_neg (fun hc => hc.2 h)]

/-- A wordish name never looks like the `processes.` literal (it cannot
contain the dot). -/
theorem wordish_take_ne_procLit (v : String) (hv : wordish v = true) :
    v.data.take procLit.length ≠ procLit := by
  intro h
  obtain ⟨-, hall⟩ := wordish_spec v hv
  have hdot : '.' ∈ v.data.take procLit.length := by rw [h]; decide
  have := hall '.' (List.take_subset _ _ hdot)
  exact absurd this (by decide)

/-- A string starting with `{` never looks like the `processes.` literal. -/
theorem brace_take_ne_procLit (X : List Char) :
    (braceOpen :: X).take procLit.length ≠ procLit := by
  intro h
  rw [show procLit.length = 10 from rfl, List.take_succ_cons] at h
  rw [show procLit = 'p' :: "rocesses.".data from rfl] at h
  injection h with h1 _
  exact absurd h1 (by decide)

/-- A `{v}` group with `v` wordish and not `PORT`-leading never matches the
`\{?PORT\}?` token of pass 2. -/
theorem brace_group_ne_port (v : String) (hv : wordish v = true)
    (hp : portLeading v = false) :
    (v.data ++ [braceClose]).take 4 ≠ "PORT".data := by
  have hp' : ¬(v.data.take 4 = "PORT".data) := by
    simpa [portLeading] using hp
  intro h
  by_cases hge : 4 ≤ v.data.length
  · rw [List.take_append_of_le_length hge] at h
    exact hp' h
  · have hlen : (v.data ++ [braceClose]).length ≤ 4 := by
      rw [List.length_append]
      simp only [List.length_cons, List.length_nil]
      omega
    rw [List.take_of_length_le hlen] at h
    have hlast := congrArg List.getLast? h
    rw [List.getLast?_concat] at hlast
    rw [show ("PORT".data.getLast?) = some 'T' from rfl] at hlast
    injection hlast with h2
    exact absurd h2 (by decide)

/-- `Except.map` on a success. -/
theorem except_map_ok {α β : Type} (f : α → β) (a : α) :
    (Except.ok a : Except String α).map f = .ok (f a) := rfl

/-- Composition: pass 1 succeeded. -/
theorem resolveEnvString_ok1 (value : String) (ctx : EnvContext) (s1 : List Char)
    (h : subProcessesGo ctx value.data = .ok s1) :
    resolveEnvString value ctx =
      match subPortGo ctx.currentPort s1 with
      | .error e => .error e
      | .ok s2 =>
        .ok (String.mk (subVarGo ctx.systemEnv (subBraceGo ctx.systemEnv s2))) := by
  unfold resolveEnvString
  rw [h]

/-- Composition: pass 1 threw. -/
theorem resolveEnvString_err1 (value : String) (ctx : EnvContext) (e : String)
    (h : subProcessesGo ctx value.data = .error e) :
    resolveEnvString value ctx = .error e := by
  unfold resolveEnvString
  rw [h]

/-- Composition: passes 1 and 2 succeeded; passes 3 and 4 are total. -/
theorem resolveEnvString_ok2 (value : String) (ctx : EnvContext)
    (s1 s2 : List Char) (h1 : subProcessesGo ctx value.data = .ok s1)
    (h2 : subPortGo ctx.currentPort s1 = .ok s2) :
    resolveEnvString value ctx =
      .ok (String.mk (subVarGo ctx.systemEnv (subBraceGo ctx.systemEnv s2))) := by
  rw [resolveEnvString_ok1 value ctx s1 h1, h2]

/-- Composition: pass 1 succeeded and pass 2 threw. -/
theorem resolveEnvString_err2 (value : String) (ctx : EnvContext)
    (s1 : List Char) (e : String) (h1 : subProcessesGo ctx value.data = .ok s1)
    (h2 : subPortGo ctx.currentPort s1 = .error e) :
    resolveEnvString value ctx = .error e := by
  rw [resolveEnvString_ok1 value ctx s1 h1, h2]

/-- Passes 2–4 leave a `$`-free intermediate result unchanged. -/
theorem resolveEnvString_of_stage1 (value : String) (ctx : EnvContext)
    (s : List Char) (h1 : subProcessesGo ctx value.data = .ok s)
    (hs : '$' ∉ s) : resolveEnvString value ctx = .ok (String.mk s) := by
  rw [resolveEnvString_ok2 value ctx s s h1 (subPortGo_no_dollar _ s hs),
    subBraceGo_no_dollar _ s hs, subVarGo_no_dollar _ s hs]

/-- C3: `resolveEnvString` substitutes in pass order: (1) every
`$processes.name.var` via exports, with the `processPorts` fallback for
`port` and an unresolved-reference error otherwise; (2) `$PORT`/`${PORT}`
from `currentPort`, throwing when it is absent; (3) `${VAR}` and then
(4) `$VAR` from the system environment, a missing variable becoming the
empty string, and the bare literal `$processes` surviving unchanged. -/
theorem c3_resolve_env_rules (ctx : EnvContext) :
    (∀ value : String, resolveEnvString value ctx =
      match subProcessesGo ctx value.data with
      | .error e => .error e
      | .ok s1 =>
        match subPortGo ctx.currentPort s1 with
        | .error e => .error e
        | .ok s2 =>
          .ok (String.mk (subVarGo ctx.systemEnv (subBraceGo ctx.systemEnv s2)))) ∧
    (∀ name var val : String, wordish name = true → wordish var = true →
      (alistGet ctx.processExports name).bind (fun ex => alistGet ex var) =
        some val →
      '$' ∉ val.data →
      resolveEnvString ("$processes." ++ name ++ "." ++ var) ctx = .ok val) ∧
    (∀ name : String, ∀ pt : Nat, wordish name = true →
      (alistGet ctx.processExports name).bind (fun ex => alistGet ex "port") =
        none →
      alistGet ctx.processPorts name = some pt →
      resolveEnvString ("$processes." ++ name ++ "." ++ "port") ctx =
        .ok (toString pt)) ∧
    (∀ name var : String, wordish name = true → wordish var = true →
      (alistGet ctx.processExports name).bind (fun ex => alistGet ex var) =
        none →
      (var = "port" → alistGet ctx.processPorts name = none) →
      resolveEnvString ("$processes." ++ name ++ "." ++ var) ctx =
        .error (unresolvedMsg var name)) ∧
    (∀ p : Nat, ctx.currentPort = some p →
      resolveEnvString "$PORT" ctx = .ok (toString p) ∧
      resolveEnvString "$\x7bPORT\x7d" ctx = .ok (toString p)) ∧
    (ctx.currentPort = none →
      resolveEnvString "$PORT" ctx =
        .error "Cannot resolve $PORT - no port allocated for this process" ∧
      resolveEnvString "$\x7bPORT\x7d" ctx =
        .error "Cannot resolve $PORT - no port allocated for this process") ∧
    (∀ v : String, wordish v = true → portLeading v = false →
      (∀ val, alistGet ctx.systemEnv v = some val → '$' ∉ val.data →
        resolveEnvString ("$\x7b" ++ v ++ "\x7d") ctx = .ok val) ∧
      (alistGet ctx.systemEnv v = none →
        resolveEnvString ("$\x7b" ++ v ++ "\x7d") ctx = .ok "")) ∧
    (∀ v : String, wordish v = true → portLeading v = false →
      v ≠ "processes" →
      resolveEnvString ("$" ++ v) ctx = .ok ((alistGet ctx.systemEnv v).getD "")) ∧
    resolveEnvString "$processes" ctx = .ok "$processes" := by
  have hdata : ∀ name var : String,
      ("$processes." ++ name ++ "." ++ var).data =
        '$' :: (procLit ++ (name.data ++ '.' :: var.data)) := by
    intro name var
    show ((("$processes." ++ name) ++ ".") ++ var).data = _
    rw [String.data_append, String.data_append, String.data_append]
    show ('$' :: procLit) ++ name.data ++ ['.'] ++ var.data = _
    simp [List.append_assoc]
  refine ⟨fun _ => rfl, ?_, ?_, ?_, ?_, ?_, ?_, ?_, ?_⟩
  · -- exports hit
    intro name var val hn hv hex hnd
    have hprv : procRefValue ctx name var = .ok val := by
      unfold procRefValue
      rw [hex]
    have h1 : subProcessesGo ctx (("$processes." ++ name ++ "." ++ var).data) =
        .ok val.data := by
      rw [hdata name var, subProcessesGo_ref ctx name var hn hv, hprv]
      rfl
    exact resolveEnvString_of_stage1 _ ctx val.data h1 hnd
  · -- port fallback
    intro name pt hn hexn hport
    have hprv : procRefValue ctx name "port" = .ok (toString pt) := by
      unfold procRefValue
      rw [hexn]
      simp [hport]
    have h1 : subProcessesGo ctx (("$processes." ++ name ++ "." ++ "port").data) =
        .ok (toString pt).data := by
      rw [hdata name "port", subProcessesGo_ref ctx name "port" hn (by decide),
        hprv]
      rfl
    exact resolveEnvString_of_stage1 _ ctx (toString pt).data h1
      (toString_nat_no_dollar pt)
  · -- unresolved reference
    intro name var hn hv hexn hports
    have hprv : procRefValue ctx name var = .error (unresolvedMsg var name) := by
      unfold procRefValue
      rw [hexn]
      by_cases hvp : var = "port"
      · rw [if_pos hvp, hports hvp]
      · rw [if_neg hvp]
    have h1 : subProcessesGo ctx (("$processes." ++ name ++ "." ++ var).data) =
        .error (unresolvedMsg var name) := by
      rw [hdata name var, subProcessesGo_ref ctx name var hn hv, hprv]
      rfl
    exact resolveEnvString_err1 _ ctx _ h1
  · -- $PORT / ${PORT} with a port
    intro p hp
    constructor
    · have h1 : subProcessesGo ctx ("$PORT".data) = .ok ('$' :: "PORT".data) := by
        rw [show ("$PORT".data) = '$' :: "PORT".data from rfl,
          subProcessesGo_dollar_skip ctx _ (fun hc => absurd hc.1 (by decide)),
          subProcessesGo_no_dollar ctx _ (by decide)]
        rfl
      have h2 : subPortGo ctx.currentPort ('$' :: "PORT".data) =
          .ok ((toString p).data) := by
        rw [hp, subPortGo_dollar_some p _ (by decide),
          show portTokRest ("PORT".data) = [] from by decide, subPortGo,
          except_map_ok, List.append_nil]
      rw [resolveEnvString_ok2 _ ctx _ _ h1 h2,
        subBraceGo_no_dollar _ _ (toString_nat_no_dollar p),
        subVarGo_no_dollar _ _ (toString_nat_no_dollar p)]
    · have h1 : subProcessesGo ctx ("$\x7bPORT\x7d".data) =
          .ok ('$' :: braceOpen :: ("PORT".data ++ [braceClose])) := by
        rw [show ("$\x7bPORT\x7d".data) =
            '$' :: braceOpen :: ("PORT".data ++ [braceClose]) from rfl,
          subProcessesGo_dollar_skip ctx _
            (fun hc => absurd hc.1 (brace_take_ne_procLit _)),
          subProcessesGo_no_dollar ctx _ (by decide)]
        rfl
      have h2 : subPortGo ctx.currentPort
          ('$' :: braceOpen :: ("PORT".data ++ [braceClose])) =
          .ok ((toString p).data) := by
        rw [hp, subPortGo_dollar_some p _ (by decide),
          show portTokRest (braceOpen :: ("PORT".data ++ [braceClose])) = []
            from by decide,
          subPortGo, except_map_ok, List.append_nil]
      rw [resolveEnvString_ok2 _ ctx _ _ h1 h2,
        subBraceGo_no_dollar _ _ (toString_nat_no_dollar p),
        subVarGo_no_dollar _ _ (toString_nat_no_dollar p)]
  · -- $PORT / ${PORT} without a port
    intro hp
    constructor
    · have h1 : subProcessesGo ctx ("$PORT".data) = .ok ('$' :: "PORT".data) := by
        rw [show ("$PORT".data) = '$' :: "PORT".data from rfl,
          subProcessesGo_dollar_skip ctx _ (fun hc => absurd hc.1 (by decide)),
          subProcessesGo_no_dollar ctx _ (by decide)]
        rfl
      exact resolveEnvString_err2 _ ctx _ _ h1
        (by rw [hp]; exact subPortGo_dollar_none _ (by decide))
    · have h1 : subProcessesGo ctx ("$\x7bPORT\x7d".data) =
          .ok ('$' :: braceOpen :: ("PORT".data ++ [braceClose])) := by
        rw [show ("$\x7bPORT\x7d".data) =
            '$' :: braceOpen :: ("PORT".data ++ [braceClose]) from rfl,
          subProcessesGo_dollar_skip ctx _
            (fun hc => absurd hc.1 (brace_take_ne_procLit _)),
          subProcessesGo_no_dollar ctx _ (by decide)]
        rfl
      exact resolveEnvString_err2 _ ctx _ _ h1
        (by rw [hp]; exact subPortGo_dollar_none _ (by decide))
  · -- ${VAR}
    intro v hv hpl
    have hdatav : ("$\x7b" ++ v ++ "\x7d").data =
        '$' :: braceOpen :: (v.data ++ [braceClose]) := by
      show (("$\x7b" ++ v) ++ "\x7d").data = _
      rw [String.data_append, String.data_append]
      show ('$' :: braceOpen :: []) ++ v.data ++ [braceClose] = _
      simp
    have hnod : '$' ∉ braceOpen :: (v.data ++ [braceClose]) := by
      intro hm
      rcases List.mem_cons.mp hm with hm | hm
      · exact absurd hm (by decide)
      · rcases List.mem_append.mp hm with hm | hm
        · exact wordish_no_dollar v hv hm
        · exact absurd hm (by decide)
    have h1 : subProcessesGo ctx (("$\x7b" ++ v ++ "\x7d").data) =
        .ok ('$' :: braceOpen :: (v.data ++ [braceClose])) := by
      rw [hdatav, subProcessesGo_dollar_skip ctx _
          (fun hc => absurd hc.1 (brace_take_ne_procLit _)),
        subProcessesGo_no_dollar ctx _ hnod]
      rfl
    have h2 : subPortGo ctx.currentPort
        ('$' :: braceOpen :: (v.data ++ [braceClose])) =
        .ok ('$' :: braceOpen :: (v.data ++ [braceClose])) := by
      rw [subPortGo_dollar_skip ctx.currentPort
          (braceOpen :: (v.data ++ [braceClose]))
          (brace_group_ne_port v hv hpl),
        subPortGo_no_dollar _ _ hnod]
      rfl
    have hres := resolveEnvString_ok2 _ ctx _ _ h1 h2
    rw [subBraceGo_token ctx.systemEnv v hv] at hres
    constructor
    · intro val hval hnd
      rw [hval] at hres
      rw [subVarGo_no_dollar _ _ (by simpa using hnd)] at hres
      exact hres
    · intro hnone
      rw [hnone] at hres
      rw [show ((Option.getD (none : Option String) "").data) = ([] : List Char)
        from rfl] at hres
      rw [subVarGo] at hres
      exact hres
  · -- $VAR
    intro v hv hpl hproc
    have hdatav : ("$" ++ v).data = '$' :: v.data := by
      rw [String.data_append]
      rfl
    have hheadne : v.data.head? ≠ some braceOpen := by
      intro hh
      have := wordish_head_word v hv braceOpen hh
      exact absurd this (by decide)
    have h1 : subProcessesGo ctx (("$" ++ v).data) = .ok ('$' :: v.data) := by
      rw [hdatav, subProcessesGo_dollar_skip ctx _
          (fun hc => absurd hc.1 (wordish_take_ne_procLit v hv)),
        subProcessesGo_no_dollar ctx _ (wordish_no_dollar v hv)]
      rfl
    have h2 : subPortGo ctx.currentPort ('$' :: v.data) =
        .ok ('$' :: v.data) := by
      have hskip : (if v.data.head? = some braceOpen then v.data.tail
          else v.data).take 4 ≠ "PORT".data := by
        rw [if_neg hheadne]
        simpa [portLeading] using hpl
      rw [subPortGo_dollar_skip ctx.currentPort _ hskip,
        subPortGo_no_dollar _ _ (wordish_no_dollar v hv)]
      rfl
    have hres := resolveEnvString_ok2 _ ctx _ _ h1 h2
    rw [subBraceGo_dollar_skip ctx.systemEnv _ (fun hc => hheadne hc.1),
      subBraceGo_no_dollar _ _ (wordish_no_dollar v hv),
      subVarGo_token ctx.systemEnv v hv hproc] at hres
    exact hres
  · -- the literal $processes
    have h1 : subProcessesGo ctx ("$processes".data) =
        .ok ('$' :: "processes".data) := by
      rw [show ("$processes".data) = '$' :: "processes".data from rfl,
        subProcessesGo_dollar_skip ctx _ (fun hc => absurd hc.1 (by decide)),
        subProcessesGo_no_dollar ctx _ (by decide)]
      rfl
    have h2 : subPortGo ctx.currentPort ('$' :: "processes".data) =
        .ok ('$' :: "processes".data) := by
      rw [subPortGo_dollar_skip ctx.currentPort _ (by decide),
        subPortGo_no_dollar _ _ (by decide)]
      rfl
    have hres := resolveEnvString_ok2 _ ctx _ _ h1 h2
    rw [subBraceGo_dollar_skip ctx.systemEnv _
        (fun hc => absurd hc.1 (by decide)),
      subBraceGo_no_dollar _ _ (by decide),
      subVarGo_processes ctx.systemEnv] at hres
    exact hres

/-- Witness for C3 on a concrete context: exports hit, port fallback,
unresolved reference, `$PORT`, `${HOME}`, a missing `$MISSING`, and the
bare `$processes` literal. -/
theorem c3_resolve_env_rules_witness :
    resolveEnvString ("$processes." ++ "db" ++ "." ++ "user")
      { processPorts := [("db", 5432)]
        processExports := [("db", [("user", "admin")])]
        currentPort := some 5173
        systemEnv := [("HOME", "/home/u")] } = .ok "admin" ∧
    resolveEnvString ("$processes." ++ "db" ++ "." ++ "port")
      { processPorts := [("db", 5432)]
        processExports := [("db", [("user", "admin")])]
        currentPort := some 5173
        systemEnv := [("HOME", "/home/u")] } = .ok (toString 5432) ∧
    resolveEnvString ("$processes." ++ "api" ++ "." ++ "url")
      { processPorts := [("db", 5432)]
        processExports := [("db", [("user", "admin")])]
        currentPort := some 5173
        systemEnv := [("HOME", "/home/u")] } =
      .error (unresolvedMsg "url" "api") ∧
    resolveEnvString "$PORT"
      { processPorts := [("db", 5432)]
        processExports := [("db", [("user", "admin")])]
        currentPort := some 5173
        systemEnv := [("HOME", "/home/u")] } = .ok (toString 5173) ∧
    resolveEnvString ("$\x7b" ++ "HOME" ++ "\x7d")
      { processPorts := [("db", 5432)]
        processExports := [("db", [("user", "admin")])]
        currentPort := some 5173
        systemEnv := [("HOME", "/home/u")] } = .ok "/home/u" ∧
    resolveEnvString ("$" ++ "MISSING")
      { processPorts := [("db", 5432)]
        processExports := [("db", [("user", "admin")])]
        currentPort := some 5173
        systemEnv := [("HOME", "/home/u")] } =
      .ok ((alistGet [("HOME", "/home/u")] "MISSING").getD "") ∧
    resolveEnvString "$processes"
      { processPorts := [("db", 5432)]
        processExports := [("db", [("user", "admin")])]
        currentPort := some 5173
        systemEnv := [("HOME", "/home/u")] } = .ok "$processes" := by
  have h := c3_resolve_env_rules
    { processPorts := [("db", 5432)]
      processExports := [("db", [("user", "admin")])]
      currentPort := some 5173
      systemEnv := [("HOME", "/home/u")] }
  exact ⟨h.2.1 "db" "user" "admin" (by decide) (by decide) (by decide)
      (by decide),
    h.2.2.1 "db" 5432 (by decide) (by decide) (by decide),
    h.2.2.2.1 "api" "url" (by decide) (by decide) (by decide) (by decide),
    (h.2.2.2.2.1 5173 rfl).1,
    (h.2.2.2.2.2.2.1 "HOME" (by decide) (by decide)).1 "/home/u" (by decide)
      (by decide),
    h.2.2.2.2.2.2.2.1 "MISSING" (by decide) (by decide) (by decide),
    h.2.2.2.2.2.2.2.2⟩

/-!  ### LogBuffer refinement lemmas  -/

/-- `getD` of a written slot. -/
theorem getD_set_self (l : List (Option String)) (i : Nat) (a : Option String)
    (h : i < l.length) : (l.set i a).getD i none = a := by
  rw [List.getD_eq_getElem?_getD, List.getElem?_set_self',
    List.getElem?_eq_getElem h]
  simp

/-- `getD` of an untouched slot. -/
theorem getD_set_ne (l : List (Option String)) (i k : Nat) (a : Option String)
    (h : k ≠ i) : (l.set i a).getD k none = l.getD k none := by
  rw [List.getD_eq_getElem?_getD, List.getElem?_set_ne (fun hh => h hh.symm),
    ← List.getD_eq_getElem?_getD]

/-- Shifting by `j ∈ (0, c)` moves to a different residue class. -/
theorem mod_shift_ne (a c j : Nat) (hj1 : 0 < j) (hj2 : j < c) :
    (a + c - j) % c ≠ a % c := by
  intro heq
  have hrw : a + c - j = a + (c - j) := by omega
  rw [hrw] at heq
  have h2 : (a + (c - j)) % c = (a + 0) % c := by simpa using heq
  have h3 : c - j ≡ 0 [MOD c] := by
    have := (Nat.ModEq.add_left_cancel' a (h2 : (a + (c - j)) % c = (a + 0) % c))
    exact this
  have h4 : (c - j) % c = 0 % c := h3
  rw [Nat.mod_eq_of_lt (by omega), Nat.zero_mod] at h4
  omega

/-- The freshly constructed buffer satisfies the invariant for an empty
history. -/
theorem logBufferInv_create (c : Nat) : LogBufferInv c [] (LogBuffer.create c) := by
  refine ⟨rfl, List.length_replicate c none, by simp [LogBuffer.create],
    by simp [LogBuffer.create], ?_⟩
  intro j hj
  simp [LogBuffer.create] at hj

/-- `push` extends the history by one line. -/
theorem logBufferInv_push (c : Nat) (hc : 0 < c) (h : List String)
    (b : LogBuffer) (hinv : LogBufferInv c h b) (line : String) :
    LogBufferInv c (h ++ [line]) (b.push line) := by
  obtain ⟨hcap, hlen, hw, hs, hmem⟩ := hinv
  have hlen1 : (h ++ [line]).length = h.length + 1 := by simp
  refine ⟨hcap, ?_, ?_, ?_, ?_⟩
  · rw [LogBuffer.push]
    simpa using hlen
  · rw [LogBuffer.push]
    show (b.writeIndex + 1) % b.capacity = _
    rw [hw, hcap, hlen1, Nat.mod_add_mod]
  · rw [LogBuffer.push]
    show (if b.size < b.capacity then b.size + 1 else b.size) = _
    rw [hcap, hs, hlen1]
    by_cases hlt : h.length < c
    · rw [if_pos (by omega)]
      omega
    · rw [if_neg (by omega)]
      omega
  · intro j hj
    have hsz : (b.push line).size = min (h.length + 1) c := by
      rw [LogBuffer.push]
      show (if b.size < b.capacity then b.size + 1 else b.size) = _
      rw [hcap, hs]
      by_cases hlt : h.length < c
      · rw [if_pos (by omega)]; omega
      · rw [if_neg (by omega)]; omega
    rw [hsz] at hj
    have hbuf : (b.push line).buffer = b.buffer.set (h.length % c) (some line) := by
      rw [LogBuffer.push, hw]
    have hrev : (h ++ [line]).reverse = line :: h.reverse := by simp
    rw [hlen1, hbuf, hrev]
    rcases Nat.eq_zero_or_pos j with hj0 | hjpos
    · subst hj0
      have hslot : (h.length + 1 + c - 1 - 0) % c = h.length % c := by
        have : h.length + 1 + c - 1 - 0 = h.length + c := by omega
        rw [this, Nat.add_mod_right]
      rw [hslot, getD_set_self _ _ _ (by rw [hlen]; exact Nat.mod_lt _ hc)]
      rfl
    · have hslot : (h.length + 1 + c - 1 - j) % c = (h.length + c - 1 - (j - 1)) % c := by
        have : h.length + 1 + c - 1 - j = h.length + c - 1 - (j - 1) := by omega
        rw [this]
      have hne : (h.length + 1 + c - 1 - j) % c ≠ h.length % c := by
        have harith : h.length + 1 + c - 1 - j = h.length + c - j := by omega
        rw [harith]
        exact mod_shift_ne h.length c j hjpos (by omega)
      rw [getD_set_ne _ _ _ _ hne, hslot]
      have hj' : j - 1 < b.size := by omega
      have := hmem (j - 1) hj'
      rw [this]
      have : (line :: h.reverse).getD j "" = h.reverse.getD (j - 1) "" := by
        rcases Nat.exists_eq_add_of_lt hjpos with ⟨j', rfl⟩
        simp
      rw [this]

/-- Folding `push` over a list of lines appends them to the history. -/
theorem logBufferInv_foldl_push (c : Nat) (hc : 0 < c) (lines : List String) :
    ∀ (h : List String) (b : LogBuffer), LogBufferInv c h b →
      LogBufferInv c (h ++ lines) (lines.foldl LogBuffer.push b) := by
  induction lines with
  | nil => intro h b hinv; simpa using hinv
  | cons x xs ih =>
    intro h b hinv
    have h1 := logBufferInv_push c hc h b hinv x
    have h2 := ih (h ++ [x]) (b.push x) h1
    simpa using h2

/-- `clear` resets the history. -/
theorem logBufferInv_clear (c : Nat) (h : List String) (b : LogBuffer)
    (hinv : LogBufferInv c h b) : LogBufferInv c [] b.clear := by
  obtain ⟨hcap, hlen, hw, hs, hmem⟩ := hinv
  refine ⟨hcap, ?_, by simp [LogBuffer.clear], by simp [LogBuffer.clear], ?_⟩
  · rw [LogBuffer.clear]
    show (List.replicate b.capacity (none : Option String)).length = c
    rw [List.length_replicate, hcap]
  · intro j hj
    simp [LogBuffer.clear] at hj

/-- Applying any operation preserves the refinement. -/
theorem logBufferInv_apply (c : Nat) (hc : 0 < c) (h : List String)
    (b : LogBuffer) (hinv : LogBufferInv c h b) (op : LogOp) :
    LogBufferInv c (opHistory h op) (b.apply op) := by
  cases op with
  | push line => exact logBufferInv_push c hc h b hinv line
  | pushLines t => exact logBufferInv_foldl_push c hc _ h b hinv
  | clear => exact logBufferInv_clear c h b hinv

/-- Applying any operation sequence preserves the refinement. -/
theorem logBufferInv_applyAll (c : Nat) (hc : 0 < c) (ops : List LogOp) :
    ∀ (h : List String) (b : LogBuffer), LogBufferInv c h b →
      LogBufferInv c (ops.foldl opHistory h) (b.applyAll ops) := by
  induction ops with
  | nil => intro h b hinv; exact hinv
  | cons op rest ih =>
    intro h b hinv
    exact ih (opHistory h op) (b.apply op) (logBufferInv_apply c hc h b hinv op)

/-- Index computation for `lastN`. -/
theorem lastN_getD (n : Nat) (l : List String) (i : Nat) (hi : i < n)
    (hn : n ≤ l.length) :
    (lastN n l).getD i "" = l.reverse.getD (n - 1 - i) "" := by
  unfold lastN
  have htlen : (l.reverse.take n).length = n := by
    rw [List.length_take, List.length_reverse]
    omega
  rw [List.getD_eq_getElem?_getD, List.getElem?_reverse (by omega)]
  rw [htlen, List.getElem?_take, if_pos (by omega), ← List.getD_eq_getElem?_getD]

/-- `lastN` of a long-enough list has length `n`. -/
theorem lastN_length (n : Nat) (l : List String) (hn : n ≤ l.length) :
    (lastN n l).length = n := by
  unfold lastN
  rw [List.length_reverse, List.length_take, List.length_reverse]
  omega

/-- `tail` under the invariant returns the last `min n size` history lines
in insertion order. -/
theorem tail_of_inv (c : Nat) (hc : 0 < c) (h : List String) (b : LogBuffer)
    (hinv : LogBufferInv c h b) (n : Nat) :
    b.tail (some n) = (lastN (min n b.size) h).map some := by
  obtain ⟨hcap, hlen, hw, hs, hmem⟩ := hinv
  have haC : min n b.size ≤ b.size := Nat.min_le_right n b.size
  have hsc : b.size ≤ c := by omega
  have hsl : b.size ≤ h.length := by omega
  have htail : b.tail (some n) = (List.range (min n b.size)).map
      (fun i => b.buffer.getD
        (((if b.size < b.capacity then b.size - min n b.size
           else (b.writeIndex + b.capacity - min n b.size) % b.capacity) + i) %
          b.capacity) none) := rfl
  rw [htail]
  apply List.ext_getElem
  · rw [List.length_map, List.length_range, List.length_map,
      lastN_length _ _ (show min n b.size ≤ h.length by omega)]
  · intro i h1 h2
    have hiaC : i < min n b.size := by
      simpa using h1
    simp only [List.getElem_map, List.getElem_range]
    have hL : i < (lastN (min n b.size) h).length := by
      rw [lastN_length _ _ (show min n b.size ≤ h.length by omega)]
      exact hiaC
    have hgd : (lastN (min n b.size) h).getD i "" =
        (lastN (min n b.size) h)[i] := List.getD_eq_getElem _ _ hL
    rw [← hgd, lastN_getD _ _ _ hiaC (by omega)]
    have hmem' := hmem (min n b.size - 1 - i) (by omega)
    have hslot : ((if b.size < b.capacity then b.size - min n b.size
        else (b.writeIndex + b.capacity - min n b.size) % b.capacity) + i) %
          b.capacity =
        (h.length + c - 1 - (min n b.size - 1 - i)) % c := by
      have htgt : h.length + c - 1 - (min n b.size - 1 - i) =
          h.length + (c - min n b.size + i) := by omega
      rw [htgt, hcap]
      by_cases hszc : b.size < c
      · rw [if_pos hszc]
        have hhl : h.length = b.size := by omega
        rw [Nat.mod_eq_of_lt (show b.size - min n b.size + i < c by omega)]
        have h2' : h.length + (c - min n b.size + i) =
            c + (b.size - min n b.size + i) := by omega
        rw [h2', Nat.add_mod_left,
          Nat.mod_eq_of_lt (show b.size - min n b.size + i < c by omega)]
      · rw [if_neg hszc]
        rw [hw]
        rw [Nat.mod_add_mod]
        have h1' : h.length % c + c - min n b.size + i =
            h.length % c + (c - min n b.size + i) := by omega
        rw [h1', Nat.mod_add_mod]
    rw [hslot, hmem']

/-- C5: under any sequence of `push`, `pushLines` and `clear` operations a
LogBuffer of capacity `c > 0` stores `min(history, c)` lines — never more
than `c`, the oldest lines being the ones discarded — `tail k` returns the
`min(k, size)` most recent lines in insertion order, and `pushLines` splits
its argument on newlines and drops empty lines. -/
theorem c5_log_buffer_ring (c : Nat) (hc : 0 < c) (ops : List LogOp) (k : Nat) :
    ((LogBuffer.create c).applyAll ops).size = min (historyOf ops).length c ∧
    ((LogBuffer.create c).applyAll ops).size ≤ c ∧
    ((LogBuffer.create c).applyAll ops).tail (some k) =
      (lastN (min k ((LogBuffer.create c).applyAll ops).size)
        (historyOf ops)).map some ∧
    ((LogBuffer.create c).applyAll ops).tail none =
      (lastN ((LogBuffer.create c).applyAll ops).size (historyOf ops)).map some ∧
    (∀ (b : LogBuffer) (t : String), b.pushLines t =
      ((splitLines t).filter (fun l => l.length > 0)).foldl LogBuffer.push b) := by
  have hinv := logBufferInv_applyAll c hc ops [] (LogBuffer.create c)
    (logBufferInv_create c)
  have hs := hinv.2.2.2.1
  refine ⟨hs, by omega, ?_, ?_, fun b t => rfl⟩
  · exact tail_of_inv c hc _ _ hinv k
  · have h1 : ((LogBuffer.create c).applyAll ops).tail none =
        ((LogBuffer.create c).applyAll ops).tail
          (some ((LogBuffer.create c).applyAll ops).size) := rfl
    rw [h1, tail_of_inv c hc _ _ hinv _, Nat.min_self]
    rfl

/-- Witness for C5: capacity 2 with three pushes retains the two newest
lines, and `tail 5` returns them in insertion order. -/
theorem c5_log_buffer_ring_witness : 0 < 2 ∧
    ((LogBuffer.create 2).applyAll
      [.push "a", .push "b", .push "c"]).tail (some 5) =
      [some "b", some "c"] := by
  refine ⟨by decide, ?_⟩
  have h := (c5_log_buffer_ring 2 (by decide)
    [.push "a", .push "b", .push "c"] 5).2.2.1
  rw [h]
  decide

/-!  ### Dependency-sort lemmas  -/

/-- What a successful process-map lookup returns. -/
theorem alistGet_pmap_some (resolved : List ResolvedProcessConfig)
    (name : String) (p : ResolvedProcessConfig)
    (h : alistGet (resolved.map (fun q => (q.name, q))) name = some p) :
    p ∈ resolved ∧ p.name = name := by
  unfold alistGet at h
  cases hf : (resolved.map (fun q => (q.name, q))).find?
      (fun pr => pr.1 = name) with
  | none => rw [hf] at h; simp at h
  | some pr =>
    rw [hf] at h
    simp only [Option.map_some'] at h
    have hmem := List.mem_of_find?_eq_some hf
    have hpred := List.find?_some hf
    rw [List.mem_map] at hmem
    obtain ⟨q, hq, hqe⟩ := hmem
    rw [decide_eq_true_iff] at hpred
    have hp : p = pr.2 := by
      injection h with h2
      exact h2.symm
    subst hp
    rw [← hqe]
    rw [← hqe] at hpred
    exact ⟨hq, hpred⟩

/-- A known name always resolves in the process map. -/
theorem alistGet_pmap_isSome (resolved : List ResolvedProcessConfig)
    (name : String) (h : name ∈ cfgNames resolved) :
    ∃ p, alistGet (resolved.map (fun q => (q.name, q))) name = some p := by
  unfold alistGet
  cases hf : (resolved.map (fun q => (q.name, q))).find?
      (fun pr => pr.1 = name) with
  | some pr => exact ⟨pr.2, rfl⟩
  | none =>
    exfalso
    rw [List.find?_eq_none] at hf
    unfold cfgNames at h
    rw [List.mem_map] at h
    obtain ⟨q, hq, hqn⟩ := h
    exact hf (q.name, q) (List.mem_map.mpr ⟨q, hq, rfl⟩)
      (by rw [decide_eq_true_iff]; exact hqn)

/-- With distinct names the lookup of an element's own name returns it. -/
theorem alistGet_pmap_self (resolved : List ResolvedProcessConfig)
    (hnodup : (cfgNames resolved).Nodup) :
    ∀ q ∈ resolved, alistGet (resolved.map (fun r => (r.name, r))) q.name =
      some q := by
  induction resolved with
  | nil => intro q hq; simp at hq
  | cons a rest ih =>
    intro q hq
    rw [show cfgNames (a :: rest) = a.name :: cfgNames rest from rfl,
      List.nodup_cons] at hnodup
    have hnodup' : (cfgNames rest).Nodup := hnodup.2
    have hanotin : a.name ∉ cfgNames rest := hnodup.1
    rcases List.mem_cons.mp hq with rfl | hq'
    · unfold alistGet
      simp [List.find?]
    · have hne : a.name ≠ q.name := by
        intro heq
        exact hanotin (heq ▸ List.mem_map.mpr ⟨q, hq', rfl⟩)
      unfold alistGet
      rw [List.map_cons, List.find?_cons_of_neg _
        (by simpa using hne)]
      exact ih hnodup' q hq'

/-- Pushing a name linked to the stack head keeps the stack a chain. -/
theorem visitChain_cons (resolved : List ResolvedProcessConfig) (name : String)
    (visiting : List String) (hchain : VisitChain resolved visiting)
    (hlink : LinkOK resolved visiting name) :
    VisitChain resolved (name :: visiting) := by
  cases visiting with
  | nil => trivial
  | cons h rest => exact ⟨hlink h rfl, hchain⟩

/-- Every stack entry reaches the stack head through the dependency
relation. -/
theorem chain_path (resolved : List ResolvedProcessConfig) :
    ∀ (visiting : List String) (v0 : String),
    VisitChain resolved (v0 :: visiting) → ∀ v ∈ v0 :: visiting,
    v = v0 ∨ Relation.TransGen (DepRel resolved) v v0 := by
  intro visiting
  induction visiting with
  | nil => intro v0 _ v hv; left; simpa using hv
  | cons v1 rest ih =>
    intro v0 hchain v hv
    obtain ⟨hd, hch⟩ := hchain
    rcases List.mem_cons.mp hv with rfl | hv'
    · left; rfl
    · rcases ih v1 hch v hv' with rfl | htg
      · right; exact Relation.TransGen.single hd
      · right; exact htg.tail hd

/-- Re-visiting a name on the DFS stack exhibits a dependency cycle. -/
theorem chain_cycle (resolved : List ResolvedProcessConfig)
    (visiting : List String) (name : String)
    (hchain : VisitChain resolved visiting)
    (hlink : LinkOK resolved visiting name) (hmem : name ∈ visiting) :
    HasCycle resolved := by
  cases visiting with
  | nil => simp at hmem
  | cons v0 rest =>
    have hlink0 : DepRel resolved v0 name := hlink v0 rfl
    rcases chain_path resolved rest v0 hchain name hmem with rfl | htg
    · exact ⟨name, Relation.TransGen.single hlink0⟩
    · exact ⟨name, htg.tail hlink0⟩

/-- A duplicate-free subset is no longer than its superset. -/
theorem nodup_subset_length {l₁ l₂ : List String} (h1 : l₁.Nodup)
    (h2 : l₁ ⊆ l₂) : l₁.length ≤ l₂.length :=
  (h1.subperm h2).length_le

/-- Unfolding of `visit` on an unvisited name absent from the stack. -/
theorem visit_unfold_new (pmap : List (String × ResolvedProcessConfig))
    (f : Nat) (name : String) (st : SortState) (p : ResolvedProcessConfig)
    (h1 : st.visited.contains name = false)
    (h2 : st.visiting.contains name = false)
    (hp : alistGet pmap name = some p) :
    visit pmap (f + 1) name st =
      match visitDeps pmap f p.deps
          { st with visiting := name :: st.visiting } with
      | .error e => .error e
      | .ok st2 =>
        .ok { sorted := st2.sorted ++ [p]
              visited := name :: st2.visited
              visiting := st2.visiting.erase name } := by
  rw [visit]
  rw [if_neg (by rw [h1]; exact Bool.false_ne_true),
    if_neg (by rw [h2]; exact Bool.false_ne_true)]
  rw [hp]

/-- Soundness/termination of one `visit` call: under the invariant and the
call discipline it never exhausts its fuel, an error exhibits a dependency
cycle, and success restores the stack, marks the name visited, and extends
the output while preserving the invariant. -/
theorem visit_sound (resolved : List ResolvedProcessConfig)
    (hnodup : (cfgNames resolved).Nodup)
    (hdeps : ∀ p ∈ resolved, ∀ d ∈ p.deps, d ∈ cfgNames resolved) :
    ∀ fuel name st, SortInv resolved st → LinkOK resolved st.visiting name →
      name ∈ cfgNames resolved →
      resolved.length + 1 ≤ fuel + st.visiting.length →
      (∀ e, visit (resolved.map (fun q => (q.name, q))) fuel name st =
          .error e → HasCycle resolved) ∧
      (∀ st', visit (resolved.map (fun q => (q.name, q))) fuel name st =
          .ok st' →
        SortInv resolved st' ∧ st'.visiting = st.visiting ∧
        (∀ x ∈ st.visited, x ∈ st'.visited) ∧ name ∈ st'.visited ∧
        ∃ t, st'.sorted = st.sorted ++ t) := by
  intro fuel
  induction fuel with
  | zero =>
    intro name st hinv hlink hname hfuel
    exfalso
    have hlen : st.visiting.length ≤ resolved.length := by
      have h := nodup_subset_length hinv.2.1 hinv.2.2.2.1
      rw [show (cfgNames resolved).length = resolved.length from
        List.length_map _ _] at h
      exact h
    omega
  | succ f ih =>
    intro name st hinv hlink hname hfuel
    obtain ⟨hvdnd, hvgnd, hvdsub, hvgsub, hdisj, hmapname, hlookup, horder,
      hchain⟩ := hinv
    cases hv1 : st.visited.contains name with
    | true =>
      have heq : visit (resolved.map (fun q => (q.name, q))) (f + 1) name st =
          .ok st := by
        rw [visit, if_pos hv1]
      refine ⟨?_, ?_⟩
      · intro e he
        rw [heq] at he
        exact absurd he (by simp)
      · intro st' hok
        rw [heq] at hok
        injection hok with hok
        subst hok
        exact ⟨⟨hvdnd, hvgnd, hvdsub, hvgsub, hdisj, hmapname, hlookup, horder,
          hchain⟩, rfl, fun x hx => hx, List.elem_iff.mp hv1, [], by simp⟩
    | false =>
      cases hv2 : st.visiting.contains name with
      | true =>
        have heq : visit (resolved.map (fun q => (q.name, q))) (f + 1) name st =
            .error ("Circular dependency detected involving \"" ++ name ++
              "\"") := by
          rw [visit, if_neg (by rw [hv1]; exact Bool.false_ne_true),
            if_pos hv2]
        refine ⟨?_, ?_⟩
        · intro e _
          exact chain_cycle resolved st.visiting name hchain hlink
            (List.elem_iff.mp hv2)
        · intro st' hok
          rw [heq] at hok
          exact absurd hok (by simp)
      | false =>
        obtain ⟨p, hp⟩ := alistGet_pmap_isSome resolved name hname
        obtain ⟨hpmem, hpname⟩ := alistGet_pmap_some resolved name p hp
        have hnotvd : name ∉ st.visited := by
          intro hm
          have h : st.visited.contains name = true := List.elem_iff.mpr hm
          rw [h] at hv1
          exact absurd hv1 (by decide)
        have hnotvg : name ∉ st.visiting := by
          intro hm
          have h : st.visiting.contains name = true := List.elem_iff.mpr hm
          rw [h] at hv2
          exact absurd hv2 (by decide)
        have hinv1 : SortInv resolved
            { st with visiting := name :: st.visiting } := by
          refine ⟨hvdnd, List.nodup_cons.mpr ⟨hnotvg, hvgnd⟩, hvdsub, ?_, ?_,
            hmapname, hlookup, horder, ?_⟩
          · intro x hx
            rcases List.mem_cons.mp hx with rfl | hx'
            · exact hname
            · exact hvgsub hx'
          · intro x hx
            intro hmem
            rcases List.mem_cons.mp hmem with rfl | hmem'
            · exact hnotvd hx
            · exact hdisj x hx hmem'
          · exact visitChain_cons resolved name st.visiting hchain hlink
        have hdeps_sound : ∀ (depl : List String) (s1 : SortState),
            SortInv resolved s1 →
            (∀ d ∈ depl, LinkOK resolved s1.visiting d) →
            (∀ d ∈ depl, d ∈ cfgNames resolved) →
            resolved.length + 1 ≤ f + s1.visiting.length →
            (∀ e, visitDeps (resolved.map (fun q => (q.name, q))) f depl s1 =
                .error e → HasCycle resolved) ∧
            (∀ s2, visitDeps (resolved.map (fun q => (q.name, q))) f depl s1 =
                .ok s2 →
              SortInv resolved s2 ∧ s2.visiting = s1.visiting ∧
              (∀ x ∈ s1.visited, x ∈ s2.visited) ∧
              (∀ d ∈ depl, d ∈ s2.visited) ∧
              ∃ t, s2.sorted = s1.sorted ++ t) := by
          intro depl
          induction depl with
          | nil =>
            intro s1 _ _ _ _
            refine ⟨?_, ?_⟩
            · intro e he
              rw [visitDeps] at he
              exact absurd he (by simp)
            · intro s2 hok
              rw [visitDeps] at hok
              injection hok with hok
              subst hok
              exact ⟨by assumption, rfl, fun x hx => hx, by simp, [], by simp⟩
          | cons d rest ihd =>
            intro s1 hinv1' hlinks hnames1 hfuel1
            have hv := ih d s1 hinv1' (hlinks d (List.mem_cons_self d rest))
              (hnames1 d (List.mem_cons_self d rest)) hfuel1
            cases hres : visit (resolved.map (fun q => (q.name, q))) f d s1 with
            | error e =>
              have heq : visitDeps (resolved.map (fun q => (q.name, q))) f
                  (d :: rest) s1 = .error e := by
                rw [visitDeps, hres]
              refine ⟨?_, ?_⟩
              · intro e' _
                exact hv.1 e hres
              · intro s2 hok
                rw [heq] at hok
                exact absurd hok (by simp)
            | ok stm =>
              obtain ⟨hinvm, hvism, hmonom, hdm, tm, htm⟩ := hv.2 stm hres
              have heq : visitDeps (resolved.map (fun q => (q.name, q))) f
                  (d :: rest) s1 =
                  visitDeps (resolved.map (fun q => (q.name, q))) f rest stm := by
                rw [visitDeps, hres]
              have hrest := ihd stm hinvm
                (by rw [hvism]
                    exact fun d' hd' => hlinks d' (List.mem_cons_of_mem d hd'))
                (fun d' hd' => hnames1 d' (List.mem_cons_of_mem d hd'))
                (by rw [hvism]; exact hfuel1)
              refine ⟨?_, ?_⟩
              · intro e he
                rw [heq] at he
                exact hrest.1 e he
              · intro s2 hok
                rw [heq] at hok
                obtain ⟨hinv2, hvis2, hmono2, hdin2, t2, ht2⟩ :=
                  hrest.2 s2 hok
                refine ⟨hinv2, by rw [hvis2, hvism], ?_, ?_, tm ++ t2, ?_⟩
                · intro x hx
                  exact hmono2 x (hmonom x hx)
                · intro d' hd'
                  rcases List.mem_cons.mp hd' with rfl | hd''
                  · exact hmono2 d' (hdm)
                  · exact hdin2 d' hd''
                · rw [ht2, htm, List.append_assoc]
        have hlinks1 : ∀ d ∈ p.deps, LinkOK resolved
            ({ st with visiting := name :: st.visiting } : SortState).visiting
            d := by
          intro d hd h hh
          have h' : name = h := by simpa using hh
          subst h'
          exact ⟨p, hpmem, hpname, hd⟩
        have hds := hdeps_sound p.deps { st with visiting := name :: st.visiting }
          hinv1 hlinks1 (fun d hd => hdeps p hpmem d hd)
          (by simp only [List.length_cons]; omega)
        have hunf := visit_unfold_new (resolved.map (fun q => (q.name, q))) f
          name st p hv1 hv2 hp
        cases hdres : visitDeps (resolved.map (fun q => (q.name, q))) f p.deps
            { st with visiting := name :: st.visiting } with
        | error e =>
          rw [hdres] at hunf
          refine ⟨?_, ?_⟩
          · intro e' _
            exact hds.1 e hdres
          · intro st' hok
            rw [hunf] at hok
            exact absurd hok (by simp)
        | ok st2 =>
          rw [hdres] at hunf
          obtain ⟨hinv2, hvis2, hmono2, hdin2, t2, ht2⟩ := hds.2 st2 hdres
          obtain ⟨h2vdnd, h2vgnd, h2vdsub, h2vgsub, h2disj, h2mapname,
            h2lookup, h2order, h2chain⟩ := hinv2
          have hnamein2 : name ∈ st2.visiting := by
            rw [hvis2]
            exact List.mem_cons_self name st.visiting
          have hnamenot2 : name ∉ st2.visited := fun hm => h2disj name hm hnamein2
          have herase : st2.visiting.erase name = st.visiting := by
            rw [hvis2]
            exact List.erase_cons_head name st.visiting
          refine ⟨?_, ?_⟩
          · intro e he
            rw [hunf] at he
            exact absurd he (by simp)
          · intro st' hok
            rw [hunf] at hok
            injection hok with hok
            subst hok
            refine ⟨⟨?_, ?_, ?_, ?_, ?_, ?_, ?_, ?_, ?_⟩, herase, ?_, ?_, ?_⟩
            · exact List.nodup_cons.mpr ⟨hnamenot2, h2vdnd⟩
            · rw [herase]; exact hvgnd
            · intro x hx
              rcases List.mem_cons.mp hx with rfl | hx'
              · exact hname
              · exact h2vdsub hx'
            · rw [herase]; exact hvgsub
            · intro x hx hmem
              rw [herase] at hmem
              rcases List.mem_cons.mp hx with rfl | hx'
              · exact hnotvg hmem
              · exact h2disj x hx' (by rw [hvis2]; exact List.mem_cons_of_mem _ hmem)
            · show (st2.sorted ++ [p]).map (fun q => q.name) =
                (name :: st2.visited).reverse
              rw [List.map_append, h2mapname, List.reverse_cons]
              simp [hpname]
            · intro q hq
              rcases List.mem_append.mp hq with hq' | hq'
              · exact h2lookup q hq'
              · have : q = p := by simpa using hq'
                subst this
                rw [hpname]
                exact hp
            · have hlen1 : (st2.sorted ++ [p]).length = st2.sorted.length + 1 :=
                by simp
              have horder' : ∀ i, ∀ hi : i < (st2.sorted ++ [p]).length,
                  ∀ d ∈ ((st2.sorted ++ [p]).get ⟨i, hi⟩).deps,
                  d ∈ ((st2.sorted ++ [p]).take i).map (fun q => q.name) := by
                intro i hi d hd
                by_cases hilt : i < st2.sorted.length
                · have hget : (st2.sorted ++ [p]).get ⟨i, hi⟩ =
                      st2.sorted.get ⟨i, hilt⟩ := List.get_append i hilt
                  rw [hget] at hd
                  rw [List.take_append_of_le_length (Nat.le_of_lt hilt)]
                  exact h2order i hilt d hd
                · have hieq : i = st2.sorted.length := by
                    rw [hlen1] at hi; omega
                  subst hieq
                  have hget : (st2.sorted ++ [p]).get
                      ⟨st2.sorted.length, hi⟩ = p := by
                    rw [List.get_append_right st2.sorted [p] (le_refl _)]
                    all_goals simp
                  rw [hget] at hd
                  rw [List.take_left st2.sorted [p], h2mapname,
                    List.mem_reverse]
                  exact hdin2 d hd
              exact horder'
            · rw [herase]; exact hchain
            · intro x hx
              exact List.mem_cons_of_mem name (hmono2 x hx)
            · exact List.mem_cons_self name st2.visited
            · exact ⟨t2 ++ [p], by rw [ht2, List.append_assoc]⟩

/-- Soundness of the toplevel loop of `sortByDependencies`: starting from an
invariant state with an empty stack, the loop either exhibits a cycle or
ends in an invariant state with an empty stack that has visited every
requested name. -/
theorem visitAll_sound (resolved : List ResolvedProcessConfig)
    (hnodup : (cfgNames resolved).Nodup)
    (hdeps : ∀ p ∈ resolved, ∀ d ∈ p.deps, d ∈ cfgNames resolved) :
    ∀ names st, SortInv resolved st → st.visiting = [] →
      (∀ n ∈ names, n ∈ cfgNames resolved) →
      (∀ e, visitAll (resolved.map (fun q => (q.name, q)))
          (resolved.length + 1) names st = .error e → HasCycle resolved) ∧
      (∀ st', visitAll (resolved.map (fun q => (q.name, q)))
          (resolved.length + 1) names st = .ok st' →
        SortInv resolved st' ∧ st'.visiting = [] ∧
        (∀ x ∈ st.visited, x ∈ st'.visited) ∧
        (∀ n ∈ names, n ∈ st'.visited) ∧
        ∃ t, st'.sorted = st.sorted ++ t) := by
  intro names
  induction names with
  | nil =>
    intro st hinv hvg _
    refine ⟨?_, ?_⟩
    · intro e he
      rw [visitAll] at he
      exact absurd he (by simp)
    · intro st' hok
      rw [visitAll] at hok
      injection hok with hok
      subst hok
      exact ⟨hinv, hvg, fun x hx => hx, by simp, [], by simp⟩
  | cons n rest ihn =>
    intro st hinv hvg hns
    have hlink : LinkOK resolved st.visiting n := by
      intro h hh
      rw [hvg] at hh
      exact absurd hh (by simp)
    have hv := visit_sound resolved hnodup hdeps (resolved.length + 1) n st
      hinv hlink (hns n (List.mem_cons_self n rest)) (by omega)
    cases hres : visit (resolved.map (fun q => (q.name, q)))
        (resolved.length + 1) n st with
    | error e =>
      have heq : visitAll (resolved.map (fun q => (q.name, q)))
          (resolved.length + 1) (n :: rest) st = .error e := by
        rw [visitAll, hres]
      refine ⟨fun e' _ => hv.1 e hres, ?_⟩
      intro st' hok
      rw [heq] at hok
      exact absurd hok (by simp)
    | ok stm =>
      obtain ⟨hinvm, hvism, hmonom, hnm, tm, htm⟩ := hv.2 stm hres
      have hvgm : stm.visiting = [] := by rw [hvism, hvg]
      have heq : visitAll (resolved.map (fun q => (q.name, q)))
          (resolved.length + 1) (n :: rest) st =
          visitAll (resolved.map (fun q => (q.name, q)))
            (resolved.length + 1) rest stm := by
        rw [visitAll, hres]
      have hrest := ihn stm hinvm hvgm
        (fun n' hn' => hns n' (List.mem_cons_of_mem n hn'))
      refine ⟨?_, ?_⟩
      · intro e he
        rw [heq] at he
        exact hrest.1 e he
      · intro st' hok
        rw [heq] at hok
        obtain ⟨hinv', hvg', hmono', hns', t', ht'⟩ := hrest.2 st' hok
        refine ⟨hinv', hvg', fun x hx => hmono' x (hmonom x hx), ?_,
          tm ++ t', by rw [ht', htm, List.append_assoc]⟩
        intro n' hn'
        rcases List.mem_cons.mp hn' with rfl | hn''
        · exact hmono' n' hnm
        · exact hns' n' hn''

/-- A list each of whose elements is recovered by looking up its name is the
`filterMap` of the lookup over its name list. -/
theorem filterMap_lookup_self (g : String → Option ResolvedProcessConfig) :
    ∀ l : List ResolvedProcessConfig, (∀ p ∈ l, g p.name = some p) →
      (l.map (fun p => p.name)).filterMap g = l := by
  intro l
  induction l with
  | nil => intro _; rfl
  | cons a rest ihl =>
    intro hl
    rw [List.map_cons, List.filterMap_cons, hl a (List.mem_cons_self a rest),
      ihl (fun p hp => hl p (List.mem_cons_of_mem a hp))]

/-- The output of the DFS is a permutation of the resolved list once every
name has been visited: names determine configs through the process map. -/
theorem sorted_perm (resolved : List ResolvedProcessConfig)
    (hnodup : (cfgNames resolved).Nodup)
    (l : List ResolvedProcessConfig) (visited : List String)
    (hmapname : l.map (fun p => p.name) = visited.reverse)
    (hvnodup : visited.Nodup)
    (hsub : visited ⊆ cfgNames resolved)
    (hall : ∀ n ∈ cfgNames resolved, n ∈ visited)
    (hlookup : ∀ p ∈ l,
      alistGet (resolved.map (fun q => (q.name, q))) p.name = some p) :
    l.Perm resolved := by
  have hnameperm : (l.map (fun p => p.name)).Perm (cfgNames resolved) := by
    rw [hmapname]
    exact (List.reverse_perm visited).trans
      ((List.perm_ext_iff_of_nodup hvnodup hnodup).mpr
        (fun a => ⟨fun h => hsub h, fun h => hall a h⟩))
  have h1 : (l.map (fun p => p.name)).filterMap
      (fun n => alistGet (resolved.map (fun q => (q.name, q))) n) = l :=
    filterMap_lookup_self _ l hlookup
  have h2 : ((cfgNames resolved).map (fun p => p)).filterMap
      (fun n => alistGet (resolved.map (fun q => (q.name, q))) n) = resolved := by
    rw [List.map_id']
    exact filterMap_lookup_self _ resolved (alistGet_pmap_self resolved hnodup)
  have hperm := List.Perm.filterMap
    (fun n => alistGet (resolved.map (fun q => (q.name, q))) n) hnameperm
  rw [h1] at hperm
  rw [List.map_id'] at h2
  rw [h2] at hperm
  exact hperm

/-- A dependency edge between processes of a topologically ordered
permutation points backwards: the dependency's name indexes earlier. -/
theorem depRel_index_lt (resolved l : List ResolvedProcessConfig)
    (hperm : l.Perm resolved)
    (hnames : (l.map (fun p => p.name)).Nodup)
    (htopo : TopoOrdered l) (a b : String) (hrel : DepRel resolved a b) :
    List.indexOf b (l.map (fun p => p.name)) <
      List.indexOf a (l.map (fun p => p.name)) := by
  obtain ⟨p, hpres, hpa, hbdeps⟩ := hrel
  have hpl : p ∈ l := hperm.mem_iff.mpr hpres
  obtain ⟨⟨i, hi⟩, hgi⟩ := List.mem_iff_get.mp hpl
  have hb : b ∈ (l.take i).map (fun p => p.name) := by
    apply htopo i hi
    rw [hgi]
    exact hbdeps
  rw [List.map_take] at hb
  obtain ⟨⟨j, hj⟩, hgj⟩ := List.mem_iff_get.mp hb
  have hjlt : j < i := lt_of_lt_of_le hj
    (by rw [List.length_take]; exact min_le_left _ _)
  have hjlen : j < (l.map (fun p => p.name)).length := by
    rw [List.length_map]; omega
  have hgj' : (l.map (fun p => p.name)).get ⟨j, hjlen⟩ = b := by
    rw [List.get_take (l.map (fun p => p.name)) hjlen hjlt]
    exact hgj
  have hilen : i < (l.map (fun p => p.name)).length := by
    rw [List.length_map]; exact hi
  have hgi' : (l.map (fun p => p.name)).get ⟨i, hilen⟩ = a := by
    rw [List.get_map]
    rw [hgi]
    exact hpa
  have hbmem : b ∈ l.map (fun p => p.name) := by
    rw [← hgj']; exact List.get_mem _ _ _
  have hamem : a ∈ l.map (fun p => p.name) := by
    rw [← hgi']; exact List.get_mem _ _ _
  have hbidx : List.indexOf b (l.map (fun p => p.name)) = j := by
    have hlt := List.indexOf_lt_length.mpr hbmem
    have := hnames.get_inj_iff.mp
      (show (l.map (fun p => p.name)).get ⟨_, hlt⟩ =
        (l.map (fun p => p.name)).get ⟨j, hjlen⟩ from by
          rw [List.indexOf_get hlt, hgj'])
    exact congrArg Fin.val this
  have haidx : List.indexOf a (l.map (fun p => p.name)) = i := by
    have hlt := List.indexOf_lt_length.mpr hamem
    have := hnames.get_inj_iff.mp
      (show (l.map (fun p => p.name)).get ⟨_, hlt⟩ =
        (l.map (fun p => p.name)).get ⟨i, hilen⟩ from by
          rw [List.indexOf_get hlt, hgi'])
    exact congrArg Fin.val this
  rw [hbidx, haidx]
  exact hjlt

/-- A topologically ordered permutation of the resolved list rules out a
dependency cycle. -/
theorem topo_no_cycle (resolved l : List ResolvedProcessConfig)
    (hperm : l.Perm resolved)
    (hnames : (l.map (fun p => p.name)).Nodup)
    (htopo : TopoOrdered l) : ¬ HasCycle resolved := by
  rintro ⟨x, hx⟩
  have key : ∀ a b, Relation.TransGen (DepRel resolved) a b →
      List.indexOf b (l.map (fun p => p.name)) <
        List.indexOf a (l.map (fun p => p.name)) := by
    intro a b h
    induction h with
    | single h1 => exact depRel_index_lt resolved l hperm hnames htopo _ _ h1
    | tail _ h2 ih =>
      exact lt_trans (depRel_index_lt resolved l hperm hnames htopo _ _ h2) ih
  exact absurd (key x x hx) (lt_irrefl _)

/-- `sortByDependencies` on a validated resolved list: an error exhibits a
dependency cycle, and success returns a topologically ordered permutation
of the whole list. -/
theorem sortByDependencies_sound (resolved : List ResolvedProcessConfig)
    (hnodup : (cfgNames resolved).Nodup)
    (hdeps : ∀ p ∈ resolved, ∀ d ∈ p.deps, d ∈ cfgNames resolved) :
    (∀ e, sortByDependencies resolved = .error e → HasCycle resolved) ∧
    (∀ l, sortByDependencies resolved = .ok l →
      l.Perm resolved ∧ TopoOrdered l) := by
  have hinit : SortInv resolved ⟨[], [], []⟩ :=
    ⟨List.nodup_nil, List.nodup_nil, List.nil_subset _, List.nil_subset _,
      by simp, rfl, by simp, fun i hi => absurd hi (by simp), trivial⟩
  have hva := visitAll_sound resolved hnodup hdeps (cfgNames resolved)
    ⟨[], [], []⟩ hinit rfl (fun n hn => hn)
  constructor
  · intro e he
    cases hres : visitAll (resolved.map (fun p => (p.name, p)))
        (resolved.length + 1) (resolved.map (fun p => p.name))
        ⟨[], [], []⟩ with
    | error e' => exact hva.1 e' hres
    | ok st' =>
      have hsort : sortByDependencies resolved = .ok st'.sorted := by
        simp only [sortByDependencies, hres]
      rw [he] at hsort
      exact absurd hsort (by simp)
  · intro l hl
    cases hres : visitAll (resolved.map (fun p => (p.name, p)))
        (resolved.length + 1) (resolved.map (fun p => p.name))
        ⟨[], [], []⟩ with
    | error e' =>
      have hsort : sortByDependencies resolved = .error e' := by
        simp only [sortByDependencies, hres]
      rw [hl] at hsort
      exact absurd hsort (by simp)
    | ok st' =>
      have hsort : sortByDependencies resolved = .ok st'.sorted := by
        simp only [sortByDependencies, hres]
      rw [hl] at hsort
      injection hsort with hsort
      obtain ⟨hinv', _, _, hall', _, _⟩ := hva.2 st' hres
      obtain ⟨hvdnd', _, hvdsub', _, _, hmapname', hlookup', horder', _⟩ :=
        hinv'
      subst hsort
      exact ⟨sorted_perm resolved hnodup st'.sorted st'.visited hmapname'
        hvdnd' hvdsub' (fun n hn => hall' n hn) hlookup', horder'⟩

/-- Normalization preserves the dependency entries: the deps of a resolved
entry are exactly the declared `dependsOn` entries. -/
theorem resolveOne_deps (cd : String) (rb i : Nat)
    (e : String × ProcessConfig) :
    (resolveOne cd rb i e).deps = declaredDeps e.2 := by
  cases hdo : e.2.dependsOn with
  | undef =>
    simp [resolveOne, ResolvedProcessConfig.deps, declaredDeps,
      normalizeDependsOn, hdo]
  | str s =>
    by_cases he : s.isEmpty = true
    · simp [resolveOne, ResolvedProcessConfig.deps, declaredDeps,
        normalizeDependsOn, hdo, he]
    · simp [resolveOne, ResolvedProcessConfig.deps, declaredDeps,
        normalizeDependsOn, hdo, he]
  | arr r es =>
    by_cases he : es.isEmpty = true
    · have hnil : es = [] := List.isEmpty_iff.mp he
      subst hnil
      simp [resolveOne, ResolvedProcessConfig.deps, declaredDeps,
        normalizeDependsOn, hdo]
    · simp [resolveOne, ResolvedProcessConfig.deps, declaredDeps,
        normalizeDependsOn, hdo, he]

/-- The names of the resolved list are the manifest keys, in order. -/
theorem cfgNames_resolveList (processes : List (String × ProcessConfig))
    (cd : String) (rb : Nat) :
    cfgNames ((processes.enum).map
      (fun ip => resolveOne cd rb ip.1 ip.2)) = processes.map Prod.fst := by
  unfold cfgNames
  rw [List.map_map]
  rw [show ((fun p : ResolvedProcessConfig => p.name) ∘
      (fun ip : Nat × (String × ProcessConfig) =>
        resolveOne cd rb ip.1 ip.2)) = (Prod.fst ∘ Prod.snd) from rfl]
  rw [← List.map_map, List.enum_map_snd]

/-- The validation scan finds nothing exactly when every dependency of every
resolved entry names a resolved process. -/
theorem firstMissingDep_none_iff (R : List ResolvedProcessConfig) :
    firstMissingDep R = none ↔
      ∀ p ∈ R, ∀ d ∈ p.deps, d ∈ R.map (fun q => q.name) := by
  simp only [firstMissingDep, List.findSome?_eq_none, Option.map_eq_none',
    List.find?_eq_none]
  constructor
  · intro h p hp d hd
    have h2 := h p hp d hd
    simpa using h2
  · intro h p hp d hd
    simpa using h p hp d hd

/-- `resolveProcessConfigs`, unfolded. -/
theorem resolveProcessConfigs_eq (processes : List (String × ProcessConfig))
    (cd : String) (rb : Nat) :
    resolveProcessConfigs processes cd rb =
      match firstMissingDep ((processes.enum).map
          (fun ip => resolveOne cd rb ip.1 ip.2)) with
      | some pd =>
        .error ("Process \"" ++ pd.1 ++ "\" depends on \"" ++ pd.2 ++
          "\" which does not exist")
      | none =>
        .ok ((processes.enum).map (fun ip => resolveOne cd rb ip.1 ip.2)) :=
  rfl

/-- C9: for a manifest with distinct process names, `resolveProcessConfigs`
succeeds exactly when every effectively declared `dependsOn` entry names a
process of the manifest (failing otherwise on the first unknown dependency;
a JS-falsy empty-string `dependsOn` declares nothing and never fails); on a
resolved list, `sortByDependencies` fails whenever the dependency graph
contains a cycle, and otherwise returns a permutation of all processes in
which every process appears after every process it depends on. -/
theorem c9_resolve_validate_and_toposort
    (processes : List (String × ProcessConfig)) (configDir : String)
    (refBase : Nat) (hkeys : (processes.map Prod.fst).Nodup) :
    ((resolveProcessConfigs processes configDir refBase).isOk = true ↔
      ∀ e ∈ processes, ∀ d ∈ declaredDeps e.2, d ∈ processes.map Prod.fst) ∧
    (∀ resolved,
      resolveProcessConfigs processes configDir refBase = .ok resolved →
      (HasCycle resolved → ∃ er, sortByDependencies resolved = .error er) ∧
      (¬ HasCycle resolved →
        ∃ l, sortByDependencies resolved = .ok l ∧ l.Perm resolved ∧
          TopoOrdered l)) := by
  have hnamesR := cfgNames_resolveList processes configDir refBase
  have hdepsIff : (∀ p ∈ (processes.enum).map
        (fun ip => resolveOne configDir refBase ip.1 ip.2),
        ∀ d ∈ p.deps, d ∈ ((processes.enum).map
          (fun ip => resolveOne configDir refBase ip.1 ip.2)).map
            (fun q => q.name)) ↔
      (∀ e ∈ processes, ∀ d ∈ declaredDeps e.2,
        d ∈ processes.map Prod.fst) := by
    constructor
    · intro h e he d hd
      obtain ⟨⟨i, hi⟩, hget⟩ := List.mem_iff_get.mp he
      have hip : (i, e) ∈ processes.enum := by
        rw [List.mem_enum_iff_get?]
        rw [List.get?_eq_get hi, hget]
      have hpR : resolveOne configDir refBase i e ∈ (processes.enum).map
          (fun ip => resolveOne configDir refBase ip.1 ip.2) :=
        List.mem_map_of_mem _ hip
      have hmem := h _ hpR d (by rw [resolveOne_deps]; exact hd)
      rw [show ((processes.enum).map
          (fun ip => resolveOne configDir refBase ip.1 ip.2)).map
            (fun q => q.name) = cfgNames ((processes.enum).map
          (fun ip => resolveOne configDir refBase ip.1 ip.2)) from rfl,
        hnamesR] at hmem
      exact hmem
    · intro h p hp d hd
      obtain ⟨ip, hip, hpe⟩ := List.mem_map.mp hp
      have he2 : ip.2 ∈ processes := by
        have hm := List.mem_map_of_mem Prod.snd hip
        rwa [List.enum_map_snd] at hm
      have hd' : d ∈ declaredDeps ip.2.2 := by
        rw [← resolveOne_deps configDir refBase ip.1 ip.2]
        rw [show resolveOne configDir refBase ip.1 ip.2 = p from hpe]
        exact hd
      have hmem := h ip.2 he2 d hd'
      rw [show ((processes.enum).map
          (fun ip => resolveOne configDir refBase ip.1 ip.2)).map
            (fun q => q.name) = cfgNames ((processes.enum).map
          (fun ip => resolveOne configDir refBase ip.1 ip.2)) from rfl,
        hnamesR]
      exact hmem
  have hre := resolveProcessConfigs_eq processes configDir refBase
  cases hfmd : firstMissingDep ((processes.enum).map
      (fun ip => resolveOne configDir refBase ip.1 ip.2)) with
  | some pd =>
    simp only [hfmd] at hre
    constructor
    · rw [hre]
      constructor
      · intro hok
        exact absurd hok Bool.false_ne_true
      · intro hall
        exfalso
        have hnone := (firstMissingDep_none_iff _).mpr (hdepsIff.mpr hall)
        rw [hfmd] at hnone
        exact absurd hnone (by simp)
    · intro resolved hok
      rw [hre] at hok
      exact absurd hok (by simp)
  | none =>
    simp only [hfmd] at hre
    have hdR : ∀ p ∈ (processes.enum).map
        (fun ip => resolveOne configDir refBase ip.1 ip.2),
        ∀ d ∈ p.deps, d ∈ cfgNames ((processes.enum).map
          (fun ip => resolveOne configDir refBase ip.1 ip.2)) :=
      (firstMissingDep_none_iff _).mp hfmd
    constructor
    · rw [hre]
      constructor
      · intro _
        exact hdepsIff.mp hdR
      · intro _
        rfl
    · intro resolved hok
      rw [hre] at hok
      injection hok with hok
      subst hok
      have hnodupR : (cfgNames ((processes.enum).map
          (fun ip => resolveOne configDir refBase ip.1 ip.2))).Nodup := by
        rw [hnamesR]; exact hkeys
      have hsound := sortByDependencies_sound _ hnodupR hdR
      constructor
      · intro hcyc
        cases hs : sortByDependencies ((processes.enum).map
            (fun ip => resolveOne configDir refBase ip.1 ip.2)) with
        | error er => exact ⟨er, rfl⟩
        | ok l =>
          obtain ⟨hperm, htopo⟩ := hsound.2 l hs
          have hnodupR' : (((processes.enum).map
              (fun ip => resolveOne configDir refBase ip.1 ip.2)).map
                (fun p => p.name)).Nodup := hnodupR
          have hnames : (l.map (fun p => p.name)).Nodup :=
            (List.Perm.nodup_iff (hperm.map (fun p => p.name))).mpr hnodupR'
          exact absurd hcyc (topo_no_cycle _ l hperm hnames htopo)
      · intro hncyc
        cases hs : sortByDependencies ((processes.enum).map
            (fun ip => resolveOne configDir refBase ip.1 ip.2)) with
        | error er => exact absurd (hsound.1 er hs) hncyc
        | ok l =>
          obtain ⟨hperm, htopo⟩ := hsound.2 l hs
          exact ⟨l, rfl, hperm, htopo⟩

/-- Witness for C9: a two-process manifest in which `api` depends on `db`,
with distinct keys. -/
theorem c9_resolve_validate_and_toposort_witness :
    (([("db", ({ command := "postgres" } : ProcessConfig)),
        ("api", ({ command := "node", dependsOn := DependsOnVal.str "db" } : ProcessConfig))].map
            Prod.fst).Nodup) ∧
    (((resolveProcessConfigs
        [("db", ({ command := "postgres" } : ProcessConfig)),
         ("api", ({ command := "node", dependsOn := DependsOnVal.str "db" } : ProcessConfig))]
        "/cfg" 0).isOk = true ↔
      ∀ e ∈ [("db", ({ command := "postgres" } : ProcessConfig)),
         ("api", ({ command := "node", dependsOn := DependsOnVal.str "db" } : ProcessConfig))],
        ∀ d ∈ declaredDeps e.2,
          d ∈ [("db", ({ command := "postgres" } : ProcessConfig)),
            ("api", ({ command := "node", dependsOn := DependsOnVal.str "db" } : ProcessConfig))].map
                Prod.fst) ∧
    (∀ resolved,
      resolveProcessConfigs
        [("db", ({ command := "postgres" } : ProcessConfig)),
         ("api", ({ command := "node", dependsOn := DependsOnVal.str "db" } : ProcessConfig))]
        "/cfg" 0 = .ok resolved →
      (HasCycle resolved → ∃ er, sortByDependencies resolved = .error er) ∧
      (¬ HasCycle resolved →
        ∃ l, sortByDependencies resolved = .ok l ∧ l.Perm resolved ∧
          TopoOrdered l))) :=
  ⟨by decide, c9_resolve_validate_and_toposort
    [("db", ({ command := "postgres" } : ProcessConfig)),
     ("api", ({ command := "node", dependsOn := DependsOnVal.str "db" } : ProcessConfig))]
    "/cfg" 0 (by decide)⟩

end Sidecar
